import Mathlib

/-!
Verification of the virtual-memory core of the lambdaOS kernel
(`src/arch/x86_64/memory/`): page descriptors, the 4-level page-table
mapper (`translate` / `map_to` / `unmap`), the active/inactive table
switching protocol, and the guarded stack allocator.

The machine state is embedded shallowly: physical memory is a function
from frame numbers to 512-entry tables, CR3 holds the active root's
address, the external frame allocator is a list of free frame numbers,
and the TLB is an abstract list of cached page numbers.  Fatal
assertions (`assert!`, `expect`, `unwrap`) are modelled by a result type
whose `panic` constructor records the machine state at the point the
kernel halts.
-/


set_option maxHeartbeats 1000000

/-- Page size in bytes (`PAGE_SIZE` in `arch::memory`). -/
def PAGE_SIZE : Nat := 4096

/-- Number of entries per table level (`ENTRY_COUNT` in `paging/mod.rs`). -/
def ENTRY_COUNT : Nat := 512

/-- A 4KiB virtual page, identified by its page number
(`Page` in `paging/mod.rs`). -/
structure Page where
  number : Nat
deriving DecidableEq, Repr

/-- `Page::containing_address`: asserts the address is canonical
(below `0x0000_8000_0000_0000` or at/above `0xffff_8000_0000_0000`),
then divides by the page size.  The fatal assertion on a non-canonical
address is modelled by `none`. -/
def Page.containing_address (addr : Nat) : Option Page :=
  if addr < 0x800000000000 ∨ 0xffff800000000000 ≤ addr then
    some ⟨addr / PAGE_SIZE⟩
  else
    none

/-- `Page::start_address`. -/
def Page.start_address (p : Page) : Nat := p.number * PAGE_SIZE

/-- `Page::p4_index`: `(number >> 27) & 0o777` (the mask `0o777 = 511`
is written as `% 512`, and the shift as division by `2^27 = 512^3`). -/
def Page.p4_index (p : Page) : Nat := p.number / (512 * 512 * 512) % 512

/-- `Page::p3_index`: `(number >> 18) & 0o777`. -/
def Page.p3_index (p : Page) : Nat := p.number / (512 * 512) % 512

/-- `Page::p2_index`: `(number >> 9) & 0o777`. -/
def Page.p2_index (p : Page) : Nat := p.number / 512 % 512

/-- `Page::p1_index`: `(number >> 0) & 0o777`. -/
def Page.p1_index (p : Page) : Nat := p.number % 512

/-- A page whose start address is canonical and fits in a 64-bit
address space; every `Page` produced by `Page::containing_address`
satisfies this. -/
def Page.isValid (p : Page) : Prop :=
  p.number < 0x800000000 ∨
    (0xffff800000000 ≤ p.number ∧ p.number < 0x10000000000000)

/-- `PageIter` from `paging/mod.rs` (field `end` is a Lean keyword, so
it is named `endp` here). -/
structure PageIter where
  start : Page
  endp : Page
deriving DecidableEq, Repr

/-- `Page::range_inclusive`. -/
def Page.range_inclusive (s e : Page) : PageIter := ⟨s, e⟩

/-- `PageIter::next` (`Iterator` impl in `paging/mod.rs`): yields the
current start page and advances while `start <= end`. -/
def PageIter.next (it : PageIter) : Option Page × PageIter :=
  if it.start.number ≤ it.endp.number then
    (some it.start, ⟨⟨it.start.number + 1⟩, it.endp⟩)
  else
    (none, it)

/-- Rust's `Iterator::nth(n)`: advance `n + 1` times and return the
last result (used by `StackAllocator::alloc_stack`). -/
def PageIter.nth (it : PageIter) : Nat → Option Page × PageIter
  | 0 => it.next
  | n + 1 => (it.next).2.nth n

/-- Run the iterator for at most `n` steps, collecting the yielded
pages (the shallow embedding of a Rust `for` loop over a `PageIter`). -/
def PageIter.take (n : Nat) (it : PageIter) : List Page :=
  match n with
  | 0 => []
  | n + 1 =>
    match it.next with
    | (some p, it') => p :: PageIter.take n it'
    | (none, _) => []

/-! ### C9 / C10 : page construction and range iteration -/

/-- The subset of `EntryFlags` (from `paging/entry.rs`, modelled from
the spec: flags plus optional pointed frame) that the verified
operations inspect: `PRESENT`, `WRITABLE` and `HUGE_PAGE`. -/
structure EntryFlags where
  present : Bool
  writable : Bool
  huge : Bool
deriving DecidableEq, Repr


def EntryFlags.PRESENT : EntryFlags := ⟨true, false, false⟩


def EntryFlags.WRITABLE : EntryFlags := ⟨false, true, false⟩


def EntryFlags.HUGE_PAGE : EntryFlags := ⟨false, false, true⟩

/-- Bitwise-or of two flag sets (`|` on `EntryFlags`). -/
def EntryFlags.union (a b : EntryFlags) : EntryFlags :=
  ⟨a.present || b.present, a.writable || b.writable, a.huge || b.huge⟩

/-- One page-table slot.  Modelled from the spec (`paging/entry.rs` is
not under `src/`): an entry carries its flags and a pointed frame
number. -/
structure Entry where
  present : Bool
  writable : Bool
  huge : Bool
  frameNo : Nat
deriving DecidableEq, Repr

/-- The all-zero entry (`Entry::set_unused` writes it;
`Entry::is_unused` compares with it). -/
def Entry.unused : Entry := ⟨false, false, false, 0⟩

/-- `Entry::is_unused`: the raw entry is zero. -/
def Entry.is_unused (e : Entry) : Bool := decide (e = Entry.unused)

/-- `Entry::pointed_frame`.  Modelled from the spec: `Some` frame
exactly when the `PRESENT` flag is set. -/
def Entry.pointed_frame (e : Entry) : Option Nat :=
  if e.present then some e.frameNo else none

/-- `Entry::set(frame, flags)`. -/
def Entry.set (fr : Nat) (fl : EntryFlags) : Entry :=
  ⟨fl.present, fl.writable, fl.huge, fr⟩

/-- The machine state visible to the paging core: physical memory viewed
as page tables (`mem f i` is entry `i` of the table in frame `f`), the
CR3 register (address of the active P4 frame), the external frame
allocator (modelled from the spec as a list of free frame numbers,
`allocate_frames` popping the head), and the TLB as an abstract list of
cached page numbers. -/
structure Machine where
  mem : Nat → Nat → Entry
  cr3 : Nat
  free : List Nat
  tlb : List Nat

/-- Result of an operation that may hit a fatal assertion: `panic`
records the machine state at the point the kernel halts. -/
inductive KResult (α : Type) where
  | panic (s : Machine)
  | ok (a : α)


def KResult.isOk {α : Type} : KResult α → Bool
  | .panic _ => false
  | .ok _ => true

/-- Forget the halt state; used to compare translation outcomes across
machines. -/
def KResult.toOpt {α : Type} : KResult α → Option α
  | .panic _ => none
  | .ok a => some a

/-- Write one table entry (the effect of `table[i].set(..)` /
`set_unused` on physical memory). -/
def setEntry (m : Machine) (a b : Nat) (e : Entry) : Machine :=
  { m with mem := fun x y => if x = a ∧ y = b then e else m.mem x y }

/-- Zero a whole table (`Table::zero`). -/
def zeroFrame (m : Machine) (a : Nat) : Machine :=
  { m with mem := fun x y => if x = a then Entry.unused else m.mem x y }

/-- Invalidate one page's cached translation
(`tlb::flush(addr)` / `MapperFlush::flush`). -/
def flushPage (m : Machine) (p : Page) : Machine :=
  { m with tlb := m.tlb.filter (fun n => n ≠ p.number) }

/-- `Table::next_table(index)`.  Modelled from the spec
(`paging/table.rs` is not under `src/`): the child table is returned
when the entry is present and not a huge-page leaf. -/
def next_table (m : Machine) (tf i : Nat) : Option Nat :=
  let e := m.mem tf i
  if e.present = true ∧ e.huge = false then some e.frameNo else none

/-- `Table::next_table_create(index)`.  Modelled from the spec: returns
the existing child, asserts the entry is not a huge page, otherwise
allocates a fresh frame (fatal when out of memory), marks the parent
entry `PRESENT | WRITABLE`, and zeroes the new table. -/
def next_table_create (m : Machine) (tf i : Nat) : KResult (Nat × Machine) :=
  match next_table m tf i with
  | some f => .ok (f, m)
  | none =>
    if (m.mem tf i).huge then .panic m
    else
      match m.free with
      | [] => .panic m
      | g :: rest =>
        let m1 := setEntry { m with free := rest } tf i ⟨true, true, false, g⟩
        .ok (g, zeroFrame m1 g)

/-! ### The `Mapper` (`paging/mapper.rs`)

Operations take the root P4 frame explicitly: the `Mapper`'s raw
`P4` pointer resolves, through the recursive slot-511 mapping, to this
frame. -/

/-- The huge-page fallback closure inside `Mapper::translate_page`:
checks for a 1GiB leaf at P3 (frame number must be `512 * 512`-aligned,
fatal assertion otherwise) and then a 2MiB leaf at P2 (frame number
must be `512`-aligned, fatal assertion otherwise). -/
def huge_fallback (m : Machine) (p : Page) (p3 : Option Nat) :
    KResult (Option Nat) :=
  match p3 with
  | none => .ok none
  | some f3 =>
    let e3 := m.mem f3 p.p3_index
    let after3 : KResult (Option Nat) :=
      match next_table m f3 p.p3_index with
      | none => .ok none
      | some f2 =>
        let e2 := m.mem f2 p.p2_index
        match e2.pointed_frame with
        | none => .ok none
        | some sf =>
          if e2.huge then
            if sf % 512 = 0 then .ok (some (sf + p.p1_index))
            else .panic m
          else .ok none
    match e3.pointed_frame with
    | none => after3
    | some sf =>
      if e3.huge then
        if sf % (512 * 512) = 0 then
          .ok (some (sf + p.p2_index * 512 + p.p1_index))
        else .panic m
      else after3

/-- `Mapper::translate_page`: the P4→P3→P2→P1 walk to a 4KiB leaf,
falling back to the huge-page checks when no 4KiB leaf exists. -/
def translate_page (m : Machine) (root : Nat) (p : Page) :
    KResult (Option Nat) :=
  let p3 := next_table m root p.p4_index
  let chain : Option Nat :=
    ((p3.bind fun f3 => next_table m f3 p.p3_index).bind
      fun f2 => next_table m f2 p.p2_index).bind
      fun f1 => (m.mem f1 p.p1_index).pointed_frame
  match chain with
  | some f => .ok (some f)
  | none => huge_fallback m p p3

/-- `Mapper::translate`: split the address into page and offset;
the fatal canonicality assertion of `Page::containing_address`
propagates. -/
def Mapper.translate (m : Machine) (root : Nat) (va : Nat) : KResult (Option Nat) :=
  match Page.containing_address va with
  | none => .panic m
  | some p =>
    match translate_page m root p with
    | .panic s => .panic s
    | .ok none => .ok none
    | .ok (some f) => .ok (some (f * PAGE_SIZE + va % PAGE_SIZE))

/-- `Mapper::map_to`: create missing intermediate tables, assert the P1
slot is unused (fatal otherwise), set it `flags | PRESENT`, and return
the machine together with the pending-flush token's page. -/
def map_to (m : Machine) (root : Nat) (p : Page) (fr : Nat)
    (fl : EntryFlags) : KResult (Machine × Page) :=
  match next_table_create m root p.p4_index with
  | .panic s => .panic s
  | .ok (f3, m1) =>
    match next_table_create m1 f3 p.p3_index with
    | .panic s => .panic s
    | .ok (f2, m2) =>
      match next_table_create m2 f2 p.p2_index with
      | .panic s => .panic s
      | .ok (f1, m3) =>
        if (m3.mem f1 p.p1_index).is_unused then
          .ok (setEntry m3 f1 p.p1_index
                (Entry.set fr (fl.union EntryFlags.PRESENT)), p)
        else .panic m3

/-- `Mapper::map`: allocate the backing frame from the external
allocator (fatal out-of-memory), then `map_to`. -/
def Mapper.map (m : Machine) (root : Nat) (p : Page) (fl : EntryFlags) :
    KResult (Machine × Page) :=
  match m.free with
  | [] => .panic m
  | g :: rest => map_to { m with free := rest } root p g fl

/-- `Mapper::unmap`: assert the page currently translates (fatal
double-unmap), walk to P1 (fatal if a huge page blocks the walk), take
the pointed frame, clear the entry, invalidate the single TLB entry
immediately, and return the flush token's page. -/
def unmap (m : Machine) (root : Nat) (p : Page) : KResult (Machine × Page) :=
  match Mapper.translate m root p.start_address with
  | .panic s => .panic s
  | .ok none => .panic m
  | .ok (some _) =>
    match next_table m root p.p4_index with
    | none => .panic m
    | some f3 =>
      match next_table m f3 p.p3_index with
      | none => .panic m
      | some f2 =>
        match next_table m f2 p.p2_index with
        | none => .panic m
        | some f1 =>
          match (m.mem f1 p.p1_index).pointed_frame with
          | none => .panic m
          | some _ =>
            let m1 := setEntry m f1 p.p1_index Entry.unused
            .ok (flushPage m1 p, p)

/-! ### `ActivePageTable` (`paging/mod.rs`) -/

/-- One hop through a table's recursive slot 511. -/
def hop511 (m : Machine) (f : Nat) : Nat := (m.mem f 511).frameNo

/-- The frame the `Mapper`'s raw `P4` pointer reaches: the fixed
recursive virtual address resolves by following slot 511 four times
from the frame CR3 points at.  With the active table self-mapped this
is CR3's own frame; inside `ActivePageTable::with` it is the inactive
table's frame. -/
def rootFrame (m : Machine) : Nat :=
  hop511 m (hop511 m (hop511 m (hop511 m (m.cr3 / PAGE_SIZE))))

/-- `ActivePageTable::switch(new_table)`: capture the outgoing root
from CR3 as an `InactivePageTable` (its P4 frame number), and write the
new table's frame start address into CR3.  Returns
`(old table's frame, machine)`. -/
def ActivePageTable.switch (m : Machine) (newFrame : Nat) : Nat × Machine :=
  (m.cr3 / PAGE_SIZE, { m with cr3 := newFrame * PAGE_SIZE })

/-- `ActivePageTable::with(table, temporary_page, f)`: map the
temporary page to the current P4 frame (a backup reference), overwrite
the active table's recursive slot 511 with the inactive table's frame,
flush the whole TLB, run `f`, restore slot 511 through the
temporary-page reference, flush again, and unmap the temporary page
(`TemporaryPage::unmap` is modelled from the spec: it unmaps the
reserved page and consumes the flush).  `f` is the closure acting on
the machine through the `Mapper`; its fatal failure propagates. -/
def ActivePageTable.withTable (m : Machine) (inactiveFrame : Nat)
    (temp : Page) (f : Machine → KResult Machine) : KResult Machine :=
  let backup := m.cr3 / PAGE_SIZE
  match map_to m (rootFrame m) temp backup EntryFlags.WRITABLE with
  | .panic s => .panic s
  | .ok (m1, tok) =>
    let m1' := flushPage m1 tok
    let m2 := setEntry m1' (rootFrame m1') 511 ⟨true, true, false, inactiveFrame⟩
    let m2' : Machine := { m2 with tlb := [] }
    match f m2' with
    | .panic s => .panic s
    | .ok m3 =>
      let m4 := setEntry m3 backup 511 ⟨true, true, false, backup⟩
      let m4' : Machine := { m4 with tlb := [] }
      match unmap m4' (rootFrame m4') temp with
      | .panic s => .panic s
      | .ok (m5, tok5) => .ok (flushPage m5 tok5)

/-! ### `StackAllocator` (`stack_allocator.rs`) -/

/-- `Stack` (`stack_allocator.rs`): `top` and `bottom` of an allocated
stack; `Stack::new` asserts `top > bottom`. -/
structure Stack where
  top : Nat
  bottom : Nat
deriving DecidableEq, Repr

/-- `StackAllocator`: the remaining page range. -/
structure StackAllocator where
  range : PageIter
deriving DecidableEq, Repr

/-- The mapping loop inside `alloc_stack`:
`for page in Page::range_inclusive(start, end)` with
`active_table.map(page, EntryFlags::PRESENT)` and an immediate flush of
each returned token. -/
def mapRange (m : Machine) (root : Nat) : List Page → KResult Machine
  | [] => .ok m
  | p :: rest =>
    match Mapper.map m root p EntryFlags.PRESENT with
    | .panic s => .panic s
    | .ok (m1, tok) => mapRange (flushPage m1 tok) root rest

/-- `StackAllocator::alloc_stack`: reject zero-sized requests; on a
cloned range take one guard page, the stack start, and the stack end
(`nth(size_in_pages - 2)` for sizes above one); commit the advanced
range and map the stack pages only when all three exist, otherwise
return `None` with allocator and machine untouched.  `Stack::new`'s
`top > bottom` assertion is the final fatal branch. -/
def StackAllocator.alloc_stack (sa : StackAllocator) (m : Machine)
    (root : Nat) (size_in_pages : Nat) :
    KResult (Option Stack × StackAllocator × Machine) :=
  if size_in_pages = 0 then .ok (none, sa, m)
  else
    let r0 := sa.range
    let n1 := r0.next
    let n2 := n1.2.next
    let n3 := if size_in_pages = 1 then (n2.1, n2.2) else n2.2.nth (size_in_pages - 2)
    match n1.1, n2.1, n3.1 with
    | some _, some s, some e =>
      let sa' : StackAllocator := ⟨n3.2⟩
      match mapRange m root
          (PageIter.take (e.number + 1 - s.number) (Page.range_inclusive s e)) with
      | .panic st => .panic st
      | .ok m' =>
        let top_of_stack := e.start_address + PAGE_SIZE
        if top_of_stack > s.start_address then
          .ok (some ⟨top_of_stack, s.start_address⟩, sa', m')
        else .panic m'
    | _, _, _ => .ok (none, sa, m)

/-! ### C8 : double switch restores the root frame -/

/-- A machine with empty tables, used to instantiate theorems. -/
def mEmpty : Machine :=
  { mem := fun _ _ => Entry.unused, cr3 := 0, free := [], tlb := [] }


def saW : StackAllocator := ⟨⟨⟨10⟩, ⟨12⟩⟩⟩


def mC2 : Machine :=
  { mem := fun f i =>
      if f = 1 ∧ i = 0 then ⟨true, true, false, 2⟩
      else if f = 2 ∧ i = 0 then ⟨true, true, false, 3⟩
      else if f = 3 ∧ i = 0 then ⟨true, true, false, 4⟩
      else if f = 4 ∧ i = 5 then ⟨true, false, false, 77⟩
      else Entry.unused,
    cr3 := PAGE_SIZE, free := [], tlb := [] }

/-- A misaligned 1GiB huge page at P3 (frame number 511). -/
def mC6a : Machine :=
  { mem := fun f i =>
      if f = 1 ∧ i = 0 then ⟨true, true, false, 2⟩
      else if f = 2 ∧ i = 0 then ⟨true, false, true, 511⟩
      else Entry.unused,
    cr3 := PAGE_SIZE, free := [], tlb := [] }

/-- An aligned 2MiB huge page at P2 (frame number 512). -/
def mC6b : Machine :=
  { mem := fun f i =>
      if f = 1 ∧ i = 0 then ⟨true, true, false, 2⟩
      else if f = 2 ∧ i = 0 then ⟨true, true, false, 3⟩
      else if f = 3 ∧ i = 0 then ⟨true, false, true, 512⟩
      else Entry.unused,
    cr3 := PAGE_SIZE, free := [], tlb := [] }

/-- An aligned 1GiB huge page at P3. -/
def mC7b : Machine :=
  { mem := fun f i =>
      if f = 1 ∧ i = 0 then ⟨true, true, false, 2⟩
      else if f = 2 ∧ i = 0 then ⟨true, false, true, 262144⟩
      else Entry.unused,
    cr3 := PAGE_SIZE, free := [], tlb := [] }

/-- An aligned 2MiB huge page at P2. -/
def mC7c : Machine :=
  { mem := fun f i =>
      if f = 1 ∧ i = 0 then ⟨true, true, false, 2⟩
      else if f = 2 ∧ i = 0 then ⟨true, true, false, 3⟩
      else if f = 3 ∧ i = 0 then ⟨true, false, true, 512⟩
      else Entry.unused,
    cr3 := PAGE_SIZE, free := [], tlb := [] }

/-- The state a fatal halt left behind, if any. -/
def KResult.panicState {α : Type} : KResult α → Option Machine
  | .panic s => some s
  | .ok _ => none

/-- The reserved temporary page (`Page { number: 0xcafebabe }` in
`paging::init`). -/
def tempPage : Page := ⟨0xcafebabe⟩

/-- A self-mapped active table (root frame 1) with the temporary page's
walk present (frames 2, 3, 4) and its P1 slot unused. -/
def mC1 : Machine :=
  { mem := fun a b =>
      if a = 1 ∧ b = 511 then ⟨true, true, false, 1⟩
      else if a = 1 ∧ b = 25 then ⟨true, true, false, 2⟩
      else if a = 2 ∧ b = 191 then ⟨true, true, false, 3⟩
      else if a = 3 ∧ b = 349 then ⟨true, true, false, 4⟩
      else Entry.unused,
    cr3 := PAGE_SIZE, free := [], tlb := [] }

/-- A closure that succeeds without touching the tables. -/
def fok : Machine → KResult Machine := fun s => KResult.ok s

/-- A closure that fails immediately (any fatal assertion inside `f`,
e.g. a `map_to` on an already-used slot, behaves like this). -/
def fpanic : Machine → KResult Machine := fun s => KResult.panic s

/-- The P3 table frame reached from `root` through P4 index `i`. -/
def p3Of (m : Machine) (root i : Nat) : Option Nat := next_table m root i

/-- The P2 table frame reached through P4 index `i`, P3 index `j`. -/
def p2Of (m : Machine) (root i j : Nat) : Option Nat :=
  (p3Of m root i).bind fun f3 => next_table m f3 j

/-- The P1 table frame reached through indices `i`, `j`, `k`. -/
def p1Of (m : Machine) (root i j k : Nat) : Option Nat :=
  (p2Of m root i j).bind fun f2 => next_table m f2 k

/-- Well-formedness of the table tree under `root`: distinct roles for
all table frames (injective paths, levels disjoint, root not reused)
and a fresh, duplicate-free free list. -/
structure WF (m : Machine) (root : Nat) : Prop where
  ne03 : ∀ {i f}, i < 512 → p3Of m root i = some f → f ≠ root
  ne02 : ∀ {i j f}, i < 512 → j < 512 → p2Of m root i j = some f → f ≠ root
  ne01 : ∀ {i j k f}, i < 512 → j < 512 → k < 512 →
    p1Of m root i j k = some f → f ≠ root
  ne32 : ∀ {i i' j' f}, i < 512 → i' < 512 → j' < 512 →
    p3Of m root i = some f → p2Of m root i' j' ≠ some f
  ne31 : ∀ {i i' j' k' f}, i < 512 → i' < 512 → j' < 512 → k' < 512 →
    p3Of m root i = some f → p1Of m root i' j' k' ≠ some f
  ne21 : ∀ {i j i' j' k' f}, i < 512 → j < 512 → i' < 512 → j' < 512 → k' < 512 →
    p2Of m root i j = some f → p1Of m root i' j' k' ≠ some f
  inj3 : ∀ {i i' f}, i < 512 → i' < 512 →
    p3Of m root i = some f → p3Of m root i' = some f → i = i'
  inj2 : ∀ {i j i' j' f}, i < 512 → j < 512 → i' < 512 → j' < 512 →
    p2Of m root i j = some f → p2Of m root i' j' = some f → i = i' ∧ j = j'
  inj1 : ∀ {i j k i' j' k' f}, i < 512 → j < 512 → k < 512 →
    i' < 512 → j' < 512 → k' < 512 →
    p1Of m root i j k = some f → p1Of m root i' j' k' = some f →
    i = i' ∧ j = j' ∧ k = k'
  freeND : m.free.Nodup
  freeFresh : ∀ g ∈ m.free, g ≠ root ∧
    (∀ i, i < 512 → p3Of m root i ≠ some g) ∧
    (∀ i j, i < 512 → j < 512 → p2Of m root i j ≠ some g) ∧
    (∀ i j k, i < 512 → j < 512 → k < 512 → p1Of m root i j k ≠ some g)

/-- A sequence of `alloc_stack` calls, all required to succeed
(`none` marks a failed allocation, `panic` a fatal error). -/
def allocSeq (root : Nat) :
    List Nat → StackAllocator → Machine →
    KResult (Option (List Stack × StackAllocator × Machine))
  | [], sa, m => .ok (some ([], sa, m))
  | s :: rest, sa, m =>
    match sa.alloc_stack m root s with
    | .panic st => .panic st
    | .ok (none, _, _) => .ok none
    | .ok (some st, sa1, m1) =>
      match allocSeq root rest sa1 m1 with
      | .panic s2 => .panic s2
      | .ok none => .ok none
      | .ok (some (l, sa2, m2)) => .ok (some (st :: l, sa2, m2))


def KResult.isOkSome {α : Type} : KResult (Option α) → Bool
  | .ok (some _) => true
  | .ok none => false
  | .panic _ => false

/-- A machine whose P1 table for the low pages exists (frames 2, 3, 4)
with three fresh backing frames on the free list. -/
def mC5 : Machine :=
  { mem := fun u v =>
      if u = 1 ∧ v = 0 then ⟨true, true, false, 2⟩
      else if u = 2 ∧ v = 0 then ⟨true, true, false, 3⟩
      else if u = 3 ∧ v = 0 then ⟨true, true, false, 4⟩
      else Entry.unused,
    cr3 := PAGE_SIZE, free := [50, 51, 52], tlb := [] }


theorem containing_address_canonical (v : Nat)
    (h : v < 0x800000000000 ∨ 0xffff800000000000 ≤ v) :
    Page.containing_address v = some ⟨v / PAGE_SIZE⟩ := by
  unfold Page.containing_address
  simp [h]


theorem containing_address_noncanonical (v : Nat)
    (h1 : 0x800000000000 ≤ v) (h2 : v < 0xffff800000000000) :
    Page.containing_address v = none := by
  unfold Page.containing_address
  rw [if_neg]
  push_neg
  exact ⟨h1, h2⟩

/-- C9: for every canonical virtual address `v`,
`Page::containing_address(v).start_address()` is `v` rounded down to the
nearest 4 KiB boundary, and for every non-canonical `v` (at/above
`0x0000_8000_0000_0000` and below `0xffff_8000_0000_0000`) page
construction fails with a fatal assertion (modelled as `none`). -/
theorem c9_containing_address (v : Nat) :
    ((v < 0x800000000000 ∨ 0xffff800000000000 ≤ v) →
      Page.containing_address v = some ⟨v / PAGE_SIZE⟩ ∧
      (Page.mk (v / PAGE_SIZE)).start_address = v - v % PAGE_SIZE) ∧
    (0x800000000000 ≤ v → v < 0xffff800000000000 →
      Page.containing_address v = none) := by
  constructor
  · intro h
    refine ⟨containing_address_canonical v h, ?_⟩
    show v / PAGE_SIZE * PAGE_SIZE = v - v % PAGE_SIZE
    have := Nat.div_add_mod v 4096
    simp only [PAGE_SIZE]
    omega
  · intro h1 h2
    exact containing_address_noncanonical v h1 h2


theorem c9_containing_address_witness :
    ((4097 < 0x800000000000 ∨ 0xffff800000000000 ≤ 4097) →
      Page.containing_address 4097 = some ⟨4097 / PAGE_SIZE⟩ ∧
      (Page.mk (4097 / PAGE_SIZE)).start_address = 4097 - 4097 % PAGE_SIZE) ∧
    ((0x800000000000 : Nat) ≤ 0x800000000000 →
      (0x800000000000 : Nat) < 0xffff800000000000 →
      Page.containing_address 0x800000000000 = none) :=
  ⟨fun h => (c9_containing_address 4097).1 h,
   fun h1 h2 => (c9_containing_address 0x800000000000).2 h1 h2⟩


theorem take_range_inclusive (n s e : Nat)
    (h : e + 1 - s ≤ n) :
    (PageIter.take n (Page.range_inclusive ⟨s⟩ ⟨e⟩)).map Page.number =
      List.range' s (e + 1 - s) := by
  induction n generalizing s with
  | zero =>
    have : e + 1 - s = 0 := Nat.le_zero.mp h
    simp [PageIter.take, this]
  | succ n ih =>
    by_cases hse : s ≤ e
    · have hnext : (Page.range_inclusive ⟨s⟩ ⟨e⟩).next =
          (some ⟨s⟩, ⟨⟨s + 1⟩, ⟨e⟩⟩) := by
        simp [PageIter.next, Page.range_inclusive, hse]
      have hlen : e + 1 - s = (e + 1 - (s + 1)) + 1 := by omega
      rw [PageIter.take]
      rw [hnext]
      simp only [List.map_cons]
      have := ih (s := s + 1) (by omega)
      rw [Page.range_inclusive] at this
      rw [this, hlen, List.range'_succ]
    · have hnext : (Page.range_inclusive ⟨s⟩ ⟨e⟩).next =
          (none, Page.range_inclusive ⟨s⟩ ⟨e⟩) := by
        simp [PageIter.next, Page.range_inclusive, hse]
      have : e + 1 - s = 0 := by omega
      rw [PageIter.take]
      rw [hnext]
      simp [this]

/-- C10: iterating `Page::range_inclusive(start, end)` (for any loop
bound large enough to exhaust it) yields exactly the pages numbered
`start.number .. end.number` inclusive, in strictly increasing order,
and yields nothing when `start > end`. -/
theorem c10_range_inclusive (s e : Page) (n : Nat)
    (h : e.number + 1 - s.number ≤ n) :
    (PageIter.take n (Page.range_inclusive s e)).map Page.number =
      List.range' s.number (e.number + 1 - s.number) ∧
    ((PageIter.take n (Page.range_inclusive s e)).map Page.number).Pairwise (· < ·) ∧
    (e.number < s.number → PageIter.take n (Page.range_inclusive s e) = []) := by
  obtain ⟨sn⟩ := s
  obtain ⟨en⟩ := e
  have hmap := take_range_inclusive n sn en h
  refine ⟨hmap, ?_, ?_⟩
  · rw [hmap]
    exact List.pairwise_lt_range' sn (en + 1 - sn) 1
  · intro hlt
    have hlt' : en < sn := hlt
    have h0 : en + 1 - sn = 0 := by omega
    have := hmap
    rw [h0] at this
    simp only [List.range'] at this
    exact List.map_eq_nil_iff.mp this


theorem c10_range_inclusive_witness :
    ((2 : Nat) + 1 - 1 ≤ 5) ∧
    ((PageIter.take 5 (Page.range_inclusive ⟨1⟩ ⟨2⟩)).map Page.number =
      List.range' 1 (2 + 1 - 1) ∧
    ((PageIter.take 5 (Page.range_inclusive ⟨1⟩ ⟨2⟩)).map Page.number).Pairwise (· < ·) ∧
    ((2 : Nat) < 1 → PageIter.take 5 (Page.range_inclusive ⟨1⟩ ⟨2⟩) = [])) :=
  ⟨by decide, c10_range_inclusive ⟨1⟩ ⟨2⟩ 5 (by decide)⟩

/-! ### The machine model: entries, tables, physical memory, CR3, TLB -/

/-- C8: with no concurrent mutation, `switch(T)` followed by
`switch` of the returned old table leaves CR3 holding the original
root's frame, and the second switch returns `T` itself. -/
theorem c8_switch_switch (m : Machine) (t : Nat) :
    (ActivePageTable.switch
        (ActivePageTable.switch m t).2
        (ActivePageTable.switch m t).1).2.cr3 / PAGE_SIZE =
      m.cr3 / PAGE_SIZE ∧
    (ActivePageTable.switch
        (ActivePageTable.switch m t).2
        (ActivePageTable.switch m t).1).1 = t := by
  have hpos : 0 < PAGE_SIZE := by simp [PAGE_SIZE]
  unfold ActivePageTable.switch
  exact ⟨Nat.mul_div_cancel _ hpos, Nat.mul_div_cancel _ hpos⟩

/-! ### C4 : failed stack allocations commit nothing -/


theorem nth_fst_none (k : Nat) : ∀ a b : Nat, b + 1 - a ≤ k →
    (PageIter.nth ⟨⟨a⟩, ⟨b⟩⟩ k).1 = none := by
  induction k with
  | zero =>
    intro a b h
    have : ¬ a ≤ b := by omega
    simp [PageIter.nth, PageIter.next, this]
  | succ k ih =>
    intro a b h
    by_cases hab : a ≤ b
    · have hnext : (PageIter.mk ⟨a⟩ ⟨b⟩).next = (some ⟨a⟩, ⟨⟨a + 1⟩, ⟨b⟩⟩) := by
        simp [PageIter.next, hab]
      show ((PageIter.mk ⟨a⟩ ⟨b⟩).next.2.nth k).1 = none
      rw [hnext]
      exact ih (a + 1) b (by omega)
    · have hnext : (PageIter.mk ⟨a⟩ ⟨b⟩).next = (none, ⟨⟨a⟩, ⟨b⟩⟩) := by
        simp [PageIter.next, hab]
      show ((PageIter.mk ⟨a⟩ ⟨b⟩).next.2.nth k).1 = none
      rw [hnext]
      exact ih a b (by omega)

/-- C4: `StackAllocator::alloc_stack` returns `None` for a zero-page
request and `None` when the remaining range cannot hold one guard page
plus `size_in_pages` stack pages; in both cases the allocator's range
and the machine (no page mapped) are returned unchanged. -/
theorem c4_alloc_stack_failure (sa : StackAllocator) (m : Machine) (root : Nat) :
    (sa.alloc_stack m root 0 = .ok (none, sa, m)) ∧
    (∀ s, 1 ≤ s → sa.range.endp.number + 1 - sa.range.start.number ≤ s →
      sa.alloc_stack m root s = .ok (none, sa, m)) := by
  obtain ⟨⟨⟨a⟩, ⟨b⟩⟩⟩ := sa
  constructor
  · simp [StackAllocator.alloc_stack]
  · intro s hs1 hins
    simp only at hins
    unfold StackAllocator.alloc_stack
    rw [if_neg (by omega : ¬ s = 0)]
    by_cases hab : a ≤ b
    · have e1 : (PageIter.mk ⟨a⟩ ⟨b⟩).next = (some ⟨a⟩, ⟨⟨a + 1⟩, ⟨b⟩⟩) := by
        simp [PageIter.next, hab]
      by_cases hab2 : a + 1 ≤ b
      · have e2 : (PageIter.mk ⟨a + 1⟩ ⟨b⟩).next = (some ⟨a + 1⟩, ⟨⟨a + 2⟩, ⟨b⟩⟩) := by
          simp [PageIter.next, hab2]
        have hs2 : 2 ≤ s := by omega
        have e3 := nth_fst_none (s - 2) (a + 2) b (by omega)
        rcases hy : PageIter.nth ⟨⟨a + 2⟩, ⟨b⟩⟩ (s - 2) with ⟨o3, it3⟩
        rw [hy] at e3
        simp only at e3
        subst e3
        dsimp only
        rw [e1]
        dsimp only
        rw [e2]
        dsimp only
        rw [if_neg (by omega : ¬ s = 1), hy]
      · have e2 : (PageIter.mk ⟨a + 1⟩ ⟨b⟩).next = (none, ⟨⟨a + 1⟩, ⟨b⟩⟩) := by
          simp [PageIter.next, hab2]
        dsimp only
        rw [e1]
        dsimp only
        rw [e2]
    · have e1 : (PageIter.mk ⟨a⟩ ⟨b⟩).next = (none, ⟨⟨a⟩, ⟨b⟩⟩) := by
        simp [PageIter.next, hab]
      dsimp only
      rw [e1]


theorem c4_alloc_stack_failure_witness :
    (saW.alloc_stack mEmpty 0 0 = .ok (none, saW, mEmpty)) ∧
    (1 ≤ 3 ∧ saW.range.endp.number + 1 - saW.range.start.number ≤ 3) ∧
    saW.alloc_stack mEmpty 0 3 = .ok (none, saW, mEmpty) :=
  ⟨(c4_alloc_stack_failure saW mEmpty 0).1,
   ⟨by decide, by decide⟩,
   (c4_alloc_stack_failure saW mEmpty 0).2 3 (by decide) (by decide)⟩

/-! ### Helper lemmas about entry writes and walks -/


theorem setEntry_mem_same (m : Machine) (a b : Nat) (e : Entry) :
    (setEntry m a b e).mem a b = e := by
  simp [setEntry]


theorem setEntry_mem_other (m : Machine) (a b : Nat) (e : Entry) (x y : Nat)
    (h : ¬(x = a ∧ y = b)) : (setEntry m a b e).mem x y = m.mem x y := by
  simp [setEntry, h]


theorem next_table_some {m : Machine} {tf i f : Nat}
    (h : next_table m tf i = some f) :
    (m.mem tf i).present = true ∧ (m.mem tf i).huge = false ∧
      (m.mem tf i).frameNo = f := by
  unfold next_table at h
  by_cases hc : (m.mem tf i).present = true ∧ (m.mem tf i).huge = false
  · rw [if_pos hc] at h
    exact ⟨hc.1, hc.2, Option.some.inj h⟩
  · rw [if_neg hc] at h
    exact absurd h (by simp)


theorem next_table_setEntry (m : Machine) (a b : Nat) (e : Entry)
    (tf i : Nat) (h : ¬(tf = a ∧ i = b)) :
    next_table (setEntry m a b e) tf i = next_table m tf i := by
  unfold next_table
  rw [setEntry_mem_other m a b e tf i h]


theorem next_table_of_huge {m : Machine} {tf i : Nat}
    (h : (m.mem tf i).huge = true) : next_table m tf i = none := by
  unfold next_table
  rw [if_neg]
  intro hc
  rw [hc.2] at h
  exact Bool.false_ne_true h

/-- The 4KiB walk succeeds: `translate_page` returns the pointed frame. -/
theorem translate_page_4k {m : Machine} {root : Nat} {p : Page} {f3 f2 f1 : Nat}
    (h3 : next_table m root p.p4_index = some f3)
    (h2 : next_table m f3 p.p3_index = some f2)
    (h1 : next_table m f2 p.p2_index = some f1)
    (hp : (m.mem f1 p.p1_index).present = true) :
    translate_page m root p = .ok (some ((m.mem f1 p.p1_index).frameNo)) := by
  unfold translate_page
  dsimp only
  rw [h3]
  simp [h2, h1, Entry.pointed_frame, hp]

/-- The walk reaches an unused P1 slot: `translate_page` returns `none`
(the huge-page fallback finds nothing since both intermediate entries
are ordinary table pointers). -/
theorem translate_page_cleared {m : Machine} {root : Nat} {p : Page} {a b c : Nat}
    (h3 : next_table m root p.p4_index = some a)
    (h2 : next_table m a p.p3_index = some b)
    (h1 : next_table m b p.p2_index = some c)
    (hp : (m.mem c p.p1_index).present = false) :
    translate_page m root p = .ok none := by
  obtain ⟨hp3, hh3, _⟩ := next_table_some h2
  obtain ⟨hp2, hh2, _⟩ := next_table_some h1
  unfold translate_page
  dsimp only
  rw [h3]
  simp only [Option.some_bind]
  rw [h2]
  simp only [Option.some_bind]
  rw [h1]
  simp only [Option.some_bind]
  unfold huge_fallback
  simp [Entry.pointed_frame, hp, hp3, hh3, hp2, hh2, h2]


theorem containing_start {p : Page} (hv : p.isValid) :
    Page.containing_address p.start_address = some p := by
  obtain ⟨n⟩ := p
  simp only [Page.isValid] at hv
  unfold Page.containing_address Page.start_address
  rw [if_pos]
  · simp only [Option.some.injEq, Page.mk.injEq]
    simp only [PAGE_SIZE]
    omega
  · rcases hv with h | ⟨h1, h2⟩
    · left
      simp only [PAGE_SIZE]
      omega
    · right
      simp only [PAGE_SIZE]
      omega

/-! ### C2 : translate agrees with the mapping plus offset -/

/-- C2: if page `p` translates to frame `f` (any leaf kind) and
`o < PAGE_SIZE`, then `Mapper::translate(p.start_address() + o)`
returns `Some(f.start_address() + o)` (a frame's start address being
its number times the page size). -/
theorem c2_translate_offset (m : Machine) (root : Nat) (p : Page) (f o : Nat)
    (ho : o < PAGE_SIZE) (hv : p.isValid)
    (ht : translate_page m root p = .ok (some f)) :
    Mapper.translate m root (p.start_address + o) = .ok (some (f * PAGE_SIZE + o)) := by
  obtain ⟨pn⟩ := p
  simp only [Page.isValid] at hv
  have hca : Page.containing_address ((Page.mk pn).start_address + o) = some ⟨pn⟩ := by
    unfold Page.containing_address Page.start_address
    rw [if_pos]
    · simp only [Option.some.injEq, Page.mk.injEq]
      simp only [PAGE_SIZE] at ho ⊢
      omega
    · rcases hv with h | ⟨h1, h2⟩
      · left
        simp only [PAGE_SIZE] at ho ⊢
        omega
      · right
        simp only [PAGE_SIZE] at ho ⊢
        omega
  have hmod : ((Page.mk pn).start_address + o) % PAGE_SIZE = o := by
    show (pn * PAGE_SIZE + o) % PAGE_SIZE = o
    simp only [PAGE_SIZE] at ho ⊢
    omega
  unfold Mapper.translate
  rw [hca]
  dsimp only
  rw [ht]
  dsimp only
  rw [hmod]


theorem c2_translate_offset_witness :
    (7 < PAGE_SIZE ∧ (Page.mk 5).isValid ∧
      translate_page mC2 1 ⟨5⟩ = .ok (some 77)) ∧
    Mapper.translate mC2 1 ((Page.mk 5).start_address + 7) =
      .ok (some (77 * PAGE_SIZE + 7)) :=
  ⟨⟨by norm_num [PAGE_SIZE], by left; norm_num, by rfl⟩,
   c2_translate_offset mC2 1 ⟨5⟩ 77 7 (by norm_num [PAGE_SIZE])
     (by left; norm_num) (by rfl)⟩

/-! ### Huge-page translation helpers -/


theorem flushPage_mem (m : Machine) (p : Page) : (flushPage m p).mem = m.mem := rfl


theorem next_table_flushPage (m : Machine) (p : Page) (tf i : Nat) :
    next_table (flushPage m p) tf i = next_table m tf i := rfl

/-- A present huge entry at P3: `translate_page` takes the 1GiB branch,
asserting `512 * 512` alignment of the frame number. -/
theorem translate_page_p3_huge {m : Machine} {root : Nat} {p : Page} {f3 : Nat}
    (h3 : next_table m root p.p4_index = some f3)
    (hpres : (m.mem f3 p.p3_index).present = true)
    (hhuge : (m.mem f3 p.p3_index).huge = true) :
    translate_page m root p =
      if (m.mem f3 p.p3_index).frameNo % (512 * 512) = 0 then
        .ok (some ((m.mem f3 p.p3_index).frameNo + p.p2_index * 512 + p.p1_index))
      else .panic m := by
  have hn : next_table m f3 p.p3_index = none := next_table_of_huge hhuge
  unfold translate_page
  dsimp only
  rw [h3]
  simp only [Option.some_bind]
  rw [hn]
  simp only [Option.none_bind]
  unfold huge_fallback
  dsimp only
  have hpf : (m.mem f3 p.p3_index).pointed_frame =
      some (m.mem f3 p.p3_index).frameNo := by
    simp [Entry.pointed_frame, hpres]
  rw [hpf]
  dsimp only
  rw [if_pos hhuge]

/-- A present huge entry at P2 behind ordinary P4/P3 table entries:
`translate_page` takes the 2MiB branch, asserting `512` alignment. -/
theorem translate_page_p2_huge {m : Machine} {root : Nat} {p : Page} {f3 f2 : Nat}
    (h3 : next_table m root p.p4_index = some f3)
    (h2 : next_table m f3 p.p3_index = some f2)
    (hpres : (m.mem f2 p.p2_index).present = true)
    (hhuge : (m.mem f2 p.p2_index).huge = true) :
    translate_page m root p =
      if (m.mem f2 p.p2_index).frameNo % 512 = 0 then
        .ok (some ((m.mem f2 p.p2_index).frameNo + p.p1_index))
      else .panic m := by
  obtain ⟨hp3, hh3, _⟩ := next_table_some h2
  have hn : next_table m f2 p.p2_index = none := next_table_of_huge hhuge
  unfold translate_page
  dsimp only
  rw [h3]
  simp only [Option.some_bind]
  rw [h2]
  simp only [Option.some_bind]
  rw [hn]
  unfold huge_fallback
  dsimp only
  have hpf3 : (m.mem f3 p.p3_index).pointed_frame =
      some (m.mem f3 p.p3_index).frameNo := by
    simp [Entry.pointed_frame, hp3]
  rw [hpf3]
  dsimp only
  rw [if_neg (by simp [hh3])]
  rw [h2]
  dsimp only
  have hpf2 : (m.mem f2 p.p2_index).pointed_frame =
      some (m.mem f2 p.p2_index).frameNo := by
    simp [Entry.pointed_frame, hpres]
  rw [hpf2]
  dsimp only
  rw [if_pos hhuge]
  simp only [Option.none_bind]


theorem translate_start_some {m : Machine} {root : Nat} {p : Page} {f : Nat}
    (hv : p.isValid) (h : translate_page m root p = .ok (some f)) :
    Mapper.translate m root p.start_address = .ok (some (f * PAGE_SIZE)) := by
  unfold Mapper.translate
  rw [containing_start hv]
  dsimp only
  rw [h]
  dsimp only
  have hz : p.start_address % PAGE_SIZE = 0 := by
    show p.number * PAGE_SIZE % PAGE_SIZE = 0
    simp [PAGE_SIZE, Nat.mul_mod_left]
  rw [hz]
  rw [Nat.add_zero]


theorem translate_start_none {m : Machine} {root : Nat} {p : Page}
    (hv : p.isValid) (h : translate_page m root p = .ok none) :
    Mapper.translate m root p.start_address = .ok none := by
  unfold Mapper.translate
  rw [containing_start hv]
  dsimp only
  rw [h]

/-! ### C6 : huge-page alignment is a fatal assertion -/

/-- C6: during translation, a present 1GiB huge entry at P3 is honored
only when its frame number is `512 * 512`-aligned, and a present 2MiB
huge entry at P2 only when `512`-aligned; a misaligned huge entry makes
translation hit a fatal assertion rather than return `None`. -/
theorem c6_huge_alignment :
    (∀ (m : Machine) (root : Nat) (p : Page) (f3 : Nat),
      next_table m root p.p4_index = some f3 →
      (m.mem f3 p.p3_index).present = true →
      (m.mem f3 p.p3_index).huge = true →
      translate_page m root p =
        if (m.mem f3 p.p3_index).frameNo % (512 * 512) = 0 then
          .ok (some ((m.mem f3 p.p3_index).frameNo + p.p2_index * 512 + p.p1_index))
        else .panic m) ∧
    (∀ (m : Machine) (root : Nat) (p : Page) (f3 f2 : Nat),
      next_table m root p.p4_index = some f3 →
      next_table m f3 p.p3_index = some f2 →
      (m.mem f2 p.p2_index).present = true →
      (m.mem f2 p.p2_index).huge = true →
      translate_page m root p =
        if (m.mem f2 p.p2_index).frameNo % 512 = 0 then
          .ok (some ((m.mem f2 p.p2_index).frameNo + p.p1_index))
        else .panic m) :=
  ⟨fun _ _ _ _ h3 hp hh => translate_page_p3_huge h3 hp hh,
   fun _ _ _ _ _ h3 h2 hp hh => translate_page_p2_huge h3 h2 hp hh⟩


theorem c6_huge_alignment_witness :
    (next_table mC6a 1 (Page.mk 0).p4_index = some 2 ∧
      (mC6a.mem 2 (Page.mk 0).p3_index).present = true ∧
      (mC6a.mem 2 (Page.mk 0).p3_index).huge = true ∧
      translate_page mC6a 1 ⟨0⟩ = .panic mC6a) ∧
    (next_table mC6b 1 (Page.mk 0).p4_index = some 2 ∧
      next_table mC6b 2 (Page.mk 0).p3_index = some 3 ∧
      (mC6b.mem 3 (Page.mk 0).p2_index).present = true ∧
      (mC6b.mem 3 (Page.mk 0).p2_index).huge = true ∧
      translate_page mC6b 1 ⟨0⟩ = .ok (some 512)) := by
  constructor
  · refine ⟨by rfl, by rfl, by rfl, ?_⟩
    have h := c6_huge_alignment.1 mC6a 1 ⟨0⟩ 2 (by rfl) (by rfl) (by rfl)
    rw [h, if_neg]
    show ¬ (511 % (512 * 512) = 0)
    norm_num
  · refine ⟨by rfl, by rfl, by rfl, by rfl, ?_⟩
    have h := c6_huge_alignment.2 mC6b 1 ⟨0⟩ 2 3 (by rfl) (by rfl) (by rfl) (by rfl)
    rw [h, if_pos]
    · show KResult.ok (some (512 + (Page.mk 0).p1_index)) = .ok (some 512)
      rfl
    · show (512 : Nat) % 512 = 0
      norm_num

/-! ### C7 : unmap asserts, rejects huge pages, clears and invalidates -/

/-- C7: `Mapper::unmap` fatally asserts when the page has no current
translation (double-unmap); fatally fails (via `expect`) when the page
is mapped through a 1GiB or 2MiB huge page; and, when the page is
mapped through an ordinary 4KiB P1 leaf, clears exactly that P1 entry,
invalidates the single TLB entry immediately (already in the returned
machine, before the flush token is consumed), and returns the flush
token for the page, leaving CR3, the allocator and every other entry
untouched. -/
theorem c7_unmap_contract :
    (∀ (m : Machine) (root : Nat) (p : Page),
      Mapper.translate m root p.start_address = .ok none →
      unmap m root p = .panic m) ∧
    (∀ (m : Machine) (root : Nat) (p : Page) (f3 : Nat),
      p.isValid →
      next_table m root p.p4_index = some f3 →
      (m.mem f3 p.p3_index).present = true →
      (m.mem f3 p.p3_index).huge = true →
      (m.mem f3 p.p3_index).frameNo % (512 * 512) = 0 →
      unmap m root p = .panic m) ∧
    (∀ (m : Machine) (root : Nat) (p : Page) (f3 f2 : Nat),
      p.isValid →
      next_table m root p.p4_index = some f3 →
      next_table m f3 p.p3_index = some f2 →
      (m.mem f2 p.p2_index).present = true →
      (m.mem f2 p.p2_index).huge = true →
      (m.mem f2 p.p2_index).frameNo % 512 = 0 →
      unmap m root p = .panic m) ∧
    (∀ (m : Machine) (root : Nat) (p : Page) (f3 f2 f1 : Nat),
      p.isValid →
      next_table m root p.p4_index = some f3 →
      next_table m f3 p.p3_index = some f2 →
      next_table m f2 p.p2_index = some f1 →
      (m.mem f1 p.p1_index).present = true →
      ∃ m', unmap m root p = .ok (m', p) ∧
        m'.mem f1 p.p1_index = Entry.unused ∧
        (∀ a b, ¬(a = f1 ∧ b = p.p1_index) → m'.mem a b = m.mem a b) ∧
        m'.tlb = m.tlb.filter (fun n => n ≠ p.number) ∧
        p.number ∉ m'.tlb ∧
        m'.cr3 = m.cr3 ∧ m'.free = m.free) := by
  refine ⟨?_, ?_, ?_, ?_⟩
  · intro m root p h
    unfold unmap
    rw [h]
  · intro m root p f3 hv h3 hpres hhuge hal
    have htp := translate_page_p3_huge h3 hpres hhuge
    rw [if_pos hal] at htp
    have ht := translate_start_some hv htp
    have hn : next_table m f3 p.p3_index = none := next_table_of_huge hhuge
    unfold unmap
    rw [ht]
    dsimp only
    rw [h3]
    dsimp only
    rw [hn]
  · intro m root p f3 f2 hv h3 h2 hpres hhuge hal
    have htp := translate_page_p2_huge h3 h2 hpres hhuge
    rw [if_pos hal] at htp
    have ht := translate_start_some hv htp
    have hn : next_table m f2 p.p2_index = none := next_table_of_huge hhuge
    unfold unmap
    rw [ht]
    dsimp only
    rw [h3]
    dsimp only
    rw [h2]
    dsimp only
    rw [hn]
  · intro m root p f3 f2 f1 hv h3 h2 h1 hpres
    have htp := translate_page_4k h3 h2 h1 hpres
    have ht := translate_start_some hv htp
    have hpf : (m.mem f1 p.p1_index).pointed_frame =
        some (m.mem f1 p.p1_index).frameNo := by
      simp [Entry.pointed_frame, hpres]
    refine ⟨flushPage (setEntry m f1 p.p1_index Entry.unused) p, ?_, ?_, ?_, ?_, ?_, rfl, rfl⟩
    · unfold unmap
      rw [ht]
      dsimp only
      rw [h3]
      dsimp only
      rw [h2]
      dsimp only
      rw [h1]
      dsimp only
      rw [hpf]
    · exact setEntry_mem_same m f1 p.p1_index Entry.unused
    · intro a b hab
      exact setEntry_mem_other m f1 p.p1_index Entry.unused a b hab
    · rfl
    · show p.number ∉ (setEntry m f1 p.p1_index Entry.unused).tlb.filter
        (fun n => n ≠ p.number)
      intro hmem
      have := List.of_mem_filter hmem
      simp at this


theorem c7_unmap_contract_witness :
    (Mapper.translate mEmpty 1 (Page.mk 0).start_address = .ok none ∧
      unmap mEmpty 1 ⟨0⟩ = .panic mEmpty) ∧
    unmap mC7b 1 ⟨0⟩ = .panic mC7b ∧
    unmap mC7c 1 ⟨0⟩ = .panic mC7c ∧
    (∃ m', unmap mC2 1 ⟨5⟩ = .ok (m', ⟨5⟩) ∧
      m'.mem 4 (Page.mk 5).p1_index = Entry.unused ∧
      (∀ a b, ¬(a = 4 ∧ b = (Page.mk 5).p1_index) → m'.mem a b = mC2.mem a b) ∧
      m'.tlb = mC2.tlb.filter (fun n => n ≠ (Page.mk 5).number) ∧
      (Page.mk 5).number ∉ m'.tlb ∧
      m'.cr3 = mC2.cr3 ∧ m'.free = mC2.free) :=
  ⟨⟨by rfl, c7_unmap_contract.1 mEmpty 1 ⟨0⟩ (by rfl)⟩,
   c7_unmap_contract.2.1 mC7b 1 ⟨0⟩ 2 (by left; norm_num) (by rfl) (by rfl)
     (by rfl) (by decide),
   c7_unmap_contract.2.2.1 mC7c 1 ⟨0⟩ 2 3 (by left; norm_num) (by rfl) (by rfl)
     (by rfl) (by rfl) (by decide),
   c7_unmap_contract.2.2.2 mC2 1 ⟨5⟩ 2 3 4 (by left; norm_num) (by rfl) (by rfl)
     (by rfl) (by rfl)⟩

/-! ### C3 : map then unmap leaves the page untranslated -/


theorem next_table_create_existing {m : Machine} {tf i f : Nat}
    (h : next_table m tf i = some f) :
    next_table_create m tf i = .ok (f, m) := by
  unfold next_table_create
  rw [h]

/-- C3: for a page `p` whose intermediate tables exist (with the usual
distinct table frames) and whose P1 slot is unused, `map_to` succeeds,
the following `unmap` (flush consumed between) succeeds, and afterwards
`translate(p.start_address())` returns `None`. -/
theorem c3_map_unmap_roundtrip (m : Machine) (root : Nat) (p : Page)
    (fr : Nat) (fl : EntryFlags) (f3 f2 f1 : Nat)
    (hv : p.isValid)
    (h3 : next_table m root p.p4_index = some f3)
    (h2 : next_table m f3 p.p3_index = some f2)
    (h1 : next_table m f2 p.p2_index = some f1)
    (hu : m.mem f1 p.p1_index = Entry.unused)
    (hr : root ≠ f1) (h31 : f3 ≠ f1) (h21 : f2 ≠ f1) :
    ∃ m1 m2,
      map_to m root p fr fl = .ok (m1, p) ∧
      unmap (flushPage m1 p) root p = .ok (m2, p) ∧
      Mapper.translate (flushPage m2 p) root p.start_address = .ok none := by
  have hne1 : ¬(root = f1 ∧ p.p4_index = p.p1_index) := fun hc => hr hc.1
  have hne3 : ¬(f3 = f1 ∧ p.p3_index = p.p1_index) := fun hc => h31 hc.1
  have hne2 : ¬(f2 = f1 ∧ p.p2_index = p.p1_index) := fun hc => h21 hc.1
  -- the machine after the successful map
  set E := Entry.set fr (fl.union EntryFlags.PRESENT) with hE
  have hEpres : E.present = true := by
    simp [hE, Entry.set, EntryFlags.union, EntryFlags.PRESENT]
  set m1 := setEntry m f1 p.p1_index E with hm1
  have hmapto : map_to m root p fr fl = .ok (m1, p) := by
    unfold map_to
    rw [next_table_create_existing h3]
    dsimp only
    rw [next_table_create_existing h2]
    dsimp only
    rw [next_table_create_existing h1]
    dsimp only
    rw [if_pos]
    rw [hu]
    simp [Entry.is_unused]
  -- the walk is untouched in m1 (the only write is the P1 leaf slot)
  have h3' : next_table (flushPage m1 p) root p.p4_index = some f3 := by
    rw [next_table_flushPage, hm1, next_table_setEntry _ _ _ _ _ _ hne1]
    exact h3
  have h2' : next_table (flushPage m1 p) f3 p.p3_index = some f2 := by
    rw [next_table_flushPage, hm1, next_table_setEntry _ _ _ _ _ _ hne3]
    exact h2
  have h1' : next_table (flushPage m1 p) f2 p.p2_index = some f1 := by
    rw [next_table_flushPage, hm1, next_table_setEntry _ _ _ _ _ _ hne2]
    exact h1
  have hcell : (flushPage m1 p).mem f1 p.p1_index = E := by
    rw [flushPage_mem, hm1]
    exact setEntry_mem_same m f1 p.p1_index E
  have hpres' : ((flushPage m1 p).mem f1 p.p1_index).present = true := by
    rw [hcell]
    exact hEpres
  have htp1 := translate_page_4k h3' h2' h1' hpres'
  have ht1 := translate_start_some hv htp1
  have hpf : ((flushPage m1 p).mem f1 p.p1_index).pointed_frame =
      some (((flushPage m1 p).mem f1 p.p1_index).frameNo) := by
    simp [Entry.pointed_frame, hpres']
  set m2 := flushPage (setEntry (flushPage m1 p) f1 p.p1_index Entry.unused) p with hm2
  have hunmap : unmap (flushPage m1 p) root p = .ok (m2, p) := by
    unfold unmap
    rw [ht1]
    dsimp only
    rw [h3']
    dsimp only
    rw [h2']
    dsimp only
    rw [h1']
    dsimp only
    rw [hpf]
  -- in m2 the whole walk is intact but the leaf is unused
  have h3'' : next_table (flushPage m2 p) root p.p4_index = some f3 := by
    rw [next_table_flushPage, hm2]
    show next_table (flushPage (setEntry (flushPage m1 p) f1 p.p1_index Entry.unused) p)
        root p.p4_index = some f3
    rw [next_table_flushPage, next_table_setEntry _ _ _ _ _ _ hne1]
    exact h3'
  have h2'' : next_table (flushPage m2 p) f3 p.p3_index = some f2 := by
    rw [next_table_flushPage, hm2, next_table_flushPage,
      next_table_setEntry _ _ _ _ _ _ hne3]
    exact h2'
  have h1'' : next_table (flushPage m2 p) f2 p.p2_index = some f1 := by
    rw [next_table_flushPage, hm2, next_table_flushPage,
      next_table_setEntry _ _ _ _ _ _ hne2]
    exact h1'
  have hcell2 : (flushPage m2 p).mem f1 p.p1_index = Entry.unused := by
    rw [flushPage_mem, hm2, flushPage_mem]
    exact setEntry_mem_same _ f1 p.p1_index Entry.unused
  have hpres2 : ((flushPage m2 p).mem f1 p.p1_index).present = false := by
    rw [hcell2]
    rfl
  have htp2 := translate_page_cleared h3'' h2'' h1'' hpres2
  exact ⟨m1, m2, hmapto, hunmap, translate_start_none hv htp2⟩


theorem c3_map_unmap_roundtrip_witness :
    ((Page.mk 6).isValid ∧
      next_table mC2 1 (Page.mk 6).p4_index = some 2 ∧
      next_table mC2 2 (Page.mk 6).p3_index = some 3 ∧
      next_table mC2 3 (Page.mk 6).p2_index = some 4 ∧
      mC2.mem 4 (Page.mk 6).p1_index = Entry.unused ∧
      (1 : Nat) ≠ 4 ∧ (2 : Nat) ≠ 4 ∧ (3 : Nat) ≠ 4) ∧
    (∃ m1 m2,
      map_to mC2 1 ⟨6⟩ 88 EntryFlags.WRITABLE = .ok (m1, ⟨6⟩) ∧
      unmap (flushPage m1 ⟨6⟩) 1 ⟨6⟩ = .ok (m2, ⟨6⟩) ∧
      Mapper.translate (flushPage m2 ⟨6⟩) 1 (Page.mk 6).start_address = .ok none) :=
  ⟨⟨by left; norm_num, by rfl, by rfl, by rfl, by rfl, by decide, by decide, by decide⟩,
   c3_map_unmap_roundtrip mC2 1 ⟨6⟩ 88 EntryFlags.WRITABLE 2 3 4
     (by left; norm_num) (by rfl) (by rfl) (by rfl) (by rfl)
     (by decide) (by decide) (by decide)⟩

/-! ### C1 : the `with` protocol and slot 511 -/


theorem next_table_create_inv {m : Machine} {tf i fres : Nat} {m1 : Machine}
    (h : next_table_create m tf i = .ok (fres, m1)) :
    m1.cr3 = m.cr3 ∧ m1.tlb = m.tlb := by
  unfold next_table_create at h
  split at h
  · cases h
    exact ⟨rfl, rfl⟩
  · split at h
    · exact KResult.noConfusion h
    · split at h
      · exact KResult.noConfusion h
      · cases h
        exact ⟨rfl, rfl⟩


theorem map_to_inv {m : Machine} {root : Nat} {p : Page} {fr : Nat}
    {fl : EntryFlags} {m1 : Machine} {tok : Page}
    (h : map_to m root p fr fl = .ok (m1, tok)) :
    m1.cr3 = m.cr3 ∧ m1.tlb = m.tlb ∧ tok = p := by
  unfold map_to at h
  split at h
  · exact KResult.noConfusion h
  · rename_i f3 mA heqA
    split at h
    · exact KResult.noConfusion h
    · rename_i f2 mB heqB
      split at h
      · exact KResult.noConfusion h
      · rename_i f1 mC heqC
        split at h
        · cases h
          obtain ⟨a1, a2⟩ := next_table_create_inv heqA
          obtain ⟨b1, b2⟩ := next_table_create_inv heqB
          obtain ⟨c1, c2⟩ := next_table_create_inv heqC
          refine ⟨?_, ?_, rfl⟩
          · show mC.cr3 = m.cr3
            rw [c1, b1, a1]
          · show mC.tlb = m.tlb
            rw [c2, b2, a2]
        · exact KResult.noConfusion h


theorem unmap_inv {m : Machine} {root : Nat} {p : Page} {m2 : Machine} {tok : Page}
    (h : unmap m root p = .ok (m2, tok)) :
    tok = p ∧ m2.cr3 = m.cr3 ∧ m2.free = m.free ∧
    m2.tlb = m.tlb.filter (fun n => n ≠ p.number) ∧
    (∀ a b, b ≠ p.p1_index → m2.mem a b = m.mem a b) := by
  unfold unmap at h
  split at h
  · exact KResult.noConfusion h
  · exact KResult.noConfusion h
  · split at h
    · exact KResult.noConfusion h
    · rename_i f3 _
      split at h
      · exact KResult.noConfusion h
      · rename_i f2 _
        split at h
        · exact KResult.noConfusion h
        · rename_i f1 _
          split at h
          · exact KResult.noConfusion h
          · cases h
            refine ⟨rfl, rfl, rfl, rfl, ?_⟩
            intro a b hb
            show (setEntry m f1 p.p1_index Entry.unused).mem a b = m.mem a b
            exact setEntry_mem_other m f1 p.p1_index Entry.unused a b
              (fun hc => hb hc.2)

/-- C1 (amended): on the normal return path — the closure `f`
succeeding — `ActivePageTable::with` restores the active table's
recursive slot 511 to the saved original root and leaves the TLB
flushed: after `with` returns, CR3 is unchanged, slot 511 of the
original root frame holds the same self-referential entry as before the
call, and the recursive mapping resolves to the original root again.
(`f` runs against the `Mapper` only, so it cannot move CR3; the
temporary page's P1 index differing from 511 reflects the reserved
scratch page `0xcafebabe`.) -/
theorem c1_with_restores_on_success (m : Machine) (inactiveFrame : Nat)
    (temp : Page) (f : Machine → KResult Machine) (m' : Machine)
    (hself : m.mem (m.cr3 / PAGE_SIZE) 511 =
      ⟨true, true, false, m.cr3 / PAGE_SIZE⟩)
    (htemp : temp.p1_index ≠ 511)
    (hfcr3 : ∀ s s', f s = .ok s' → s'.cr3 = s.cr3)
    (hok : ActivePageTable.withTable m inactiveFrame temp f = .ok m') :
    m'.mem (m.cr3 / PAGE_SIZE) 511 = m.mem (m.cr3 / PAGE_SIZE) 511 ∧
    m'.cr3 = m.cr3 ∧ m'.tlb = [] ∧
    rootFrame m' = m.cr3 / PAGE_SIZE := by
  unfold ActivePageTable.withTable at hok
  dsimp only at hok
  split at hok
  · exact KResult.noConfusion hok
  · rename_i m1 tok heq1
    split at hok
    · exact KResult.noConfusion hok
    · rename_i m3 heqf
      split at hok
      · exact KResult.noConfusion hok
      · rename_i m5 tok5 hequ
        cases hok
        obtain ⟨hcr1, _, _⟩ := map_to_inv heq1
        have hcr3 : m3.cr3 = m.cr3 := by
          have := hfcr3 _ _ heqf
          rw [this]
          show ({ setEntry (flushPage m1 tok)
              (rootFrame (flushPage m1 tok)) 511
              ⟨true, true, false, inactiveFrame⟩ with tlb := [] } : Machine).cr3 = m.cr3
          show m1.cr3 = m.cr3
          exact hcr1
        obtain ⟨htok5, hcr5, _, htlb5, hmem5⟩ := unmap_inv hequ
        rw [htok5]
        have hcr5' : m5.cr3 = m.cr3 := by
          rw [hcr5]
          show m3.cr3 = m.cr3
          exact hcr3
        have hmemb : m5.mem (m.cr3 / PAGE_SIZE) 511 =
            ⟨true, true, false, m.cr3 / PAGE_SIZE⟩ := by
          rw [hmem5 _ _ (fun hc => htemp hc.symm)]
          show (setEntry m3 (m.cr3 / PAGE_SIZE) 511
            ⟨true, true, false, m.cr3 / PAGE_SIZE⟩).mem (m.cr3 / PAGE_SIZE) 511 =
            ⟨true, true, false, m.cr3 / PAGE_SIZE⟩
          exact setEntry_mem_same _ _ _ _
        refine ⟨?_, ?_, ?_, ?_⟩
        · show m5.mem (m.cr3 / PAGE_SIZE) 511 = m.mem (m.cr3 / PAGE_SIZE) 511
          rw [hmemb, hself]
        · show m5.cr3 = m.cr3
          exact hcr5'
        · show m5.tlb.filter (fun n => n ≠ temp.number) = []
          rw [htlb5]
          rfl
        · show rootFrame (flushPage m5 temp) = m.cr3 / PAGE_SIZE
          unfold rootFrame hop511
          show ((m5.mem ((m5.mem ((m5.mem ((m5.mem ((flushPage m5 temp).cr3 / PAGE_SIZE)
            511).frameNo) 511).frameNo) 511).frameNo) 511).frameNo) = m.cr3 / PAGE_SIZE
          have hc : (flushPage m5 temp).cr3 / PAGE_SIZE = m.cr3 / PAGE_SIZE := by
            show m5.cr3 / PAGE_SIZE = m.cr3 / PAGE_SIZE
            rw [hcr5']
          rw [hc, hmemb]
          show ((m5.mem ((m5.mem ((m5.mem (m.cr3 / PAGE_SIZE) 511).frameNo) 511).frameNo)
            511).frameNo) = m.cr3 / PAGE_SIZE
          rw [hmemb]
          show ((m5.mem ((m5.mem (m.cr3 / PAGE_SIZE) 511).frameNo) 511).frameNo) =
            m.cr3 / PAGE_SIZE
          rw [hmemb]
          show ((m5.mem (m.cr3 / PAGE_SIZE) 511).frameNo) = m.cr3 / PAGE_SIZE
          rw [hmemb]

/-- C1 counterexample: when the closure `f` fails, `with` does *not*
restore the recursive slot 511 — the kernel halts with the active
root's slot 511 still pointing at the inactive table's frame, so the
restore does not execute on this exit path. -/
theorem c1_with_counterexample :
    ∃ s, ActivePageTable.withTable mC1 5 tempPage fpanic = .panic s ∧
      s.mem (mC1.cr3 / PAGE_SIZE) 511 ≠ mC1.mem (mC1.cr3 / PAGE_SIZE) 511 := by
  have hval : (ActivePageTable.withTable mC1 5 tempPage fpanic).panicState.map
      (fun s => s.mem (mC1.cr3 / PAGE_SIZE) 511) =
      some ⟨true, true, false, 5⟩ := by rfl
  cases hw : ActivePageTable.withTable mC1 5 tempPage fpanic with
  | ok a =>
    rw [hw] at hval
    exact Option.noConfusion hval
  | panic s =>
    rw [hw] at hval
    have hs : s.mem (mC1.cr3 / PAGE_SIZE) 511 = ⟨true, true, false, 5⟩ := by
      simpa [KResult.panicState] using hval
    refine ⟨s, rfl, ?_⟩
    rw [hs]
    have h1 : mC1.mem (mC1.cr3 / PAGE_SIZE) 511 = ⟨true, true, false, 1⟩ := by rfl
    rw [h1]
    simp


theorem c1_with_restores_on_success_witness :
    (mC1.mem (mC1.cr3 / PAGE_SIZE) 511 =
        ⟨true, true, false, mC1.cr3 / PAGE_SIZE⟩ ∧
      tempPage.p1_index ≠ 511) ∧
    ∃ m', ActivePageTable.withTable mC1 5 tempPage fok = .ok m' ∧
      (m'.mem (mC1.cr3 / PAGE_SIZE) 511 = mC1.mem (mC1.cr3 / PAGE_SIZE) 511 ∧
        m'.cr3 = mC1.cr3 ∧ m'.tlb = [] ∧
        rootFrame m' = mC1.cr3 / PAGE_SIZE) := by
  refine ⟨⟨by rfl, by decide⟩, ?_⟩
  have hOk : (ActivePageTable.withTable mC1 5 tempPage fok).isOk = true := by rfl
  cases hw : ActivePageTable.withTable mC1 5 tempPage fok with
  | panic s =>
    rw [hw] at hOk
    exact Bool.noConfusion hOk
  | ok m' =>
    exact ⟨m', rfl,
      c1_with_restores_on_success mC1 5 tempPage fok m' (by rfl) (by decide)
        (fun s s' h => by cases h; rfl) hw⟩

/-! ### C5 : machinery — table-walk paths and well-formedness -/


theorem p4_index_lt (p : Page) : p.p4_index < 512 := Nat.mod_lt _ (by norm_num)


theorem p3_index_lt (p : Page) : p.p3_index < 512 := Nat.mod_lt _ (by norm_num)


theorem p2_index_lt (p : Page) : p.p2_index < 512 := Nat.mod_lt _ (by norm_num)


theorem p1_index_lt (p : Page) : p.p1_index < 512 := Nat.mod_lt _ (by norm_num)

/-- Two pages with different (36-bit-bounded) numbers differ in at
least one of the four table indices. -/
theorem tuple_ne_of_number_ne {q p : Page}
    (hq : q.number < 512 * 512 * 512 * 512) (hp : p.number < 512 * 512 * 512 * 512)
    (hne : q.number ≠ p.number) :
    q.p4_index ≠ p.p4_index ∨ q.p3_index ≠ p.p3_index ∨
    q.p2_index ≠ p.p2_index ∨ q.p1_index ≠ p.p1_index := by
  by_contra hc
  push_neg at hc
  obtain ⟨h4, h3, h2, h1⟩ := hc
  apply hne
  simp only [Page.p4_index, Page.p3_index, Page.p2_index, Page.p1_index]
    at h4 h3 h2 h1
  set x := q.number with hx
  set y := p.number with hy
  have e1 : x = 512 * (x / 512) + x % 512 := by omega
  have e2 : x / 512 = 512 * (x / 512 / 512) + (x / 512) % 512 := by omega
  have e3 : x / 512 / 512 = 512 * (x / 512 / 512 / 512) + (x / 512 / 512) % 512 := by
    omega
  have f1 : y = 512 * (y / 512) + y % 512 := by omega
  have f2 : y / 512 = 512 * (y / 512 / 512) + (y / 512) % 512 := by omega
  have f3 : y / 512 / 512 = 512 * (y / 512 / 512 / 512) + (y / 512 / 512) % 512 := by
    omega
  have hx4 : x / (512 * 512 * 512) = x / 512 / 512 / 512 := by
    rw [Nat.div_div_eq_div_mul, Nat.div_div_eq_div_mul]
  have hy4 : y / (512 * 512 * 512) = y / 512 / 512 / 512 := by
    rw [Nat.div_div_eq_div_mul, Nat.div_div_eq_div_mul]
  have hx3 : x / (512 * 512) = x / 512 / 512 := by rw [Nat.div_div_eq_div_mul]
  have hy3 : y / (512 * 512) = y / 512 / 512 := by rw [Nat.div_div_eq_div_mul]
  rw [hx4, hy4] at h4
  rw [hx3, hy3] at h3
  have hxt : x / 512 / 512 / 512 < 512 := by
    have : x < 512 * 512 * 512 * 512 := hq
    omega
  have hyt : y / 512 / 512 / 512 < 512 := by
    have : y < 512 * 512 * 512 * 512 := hp
    omega
  rw [Nat.mod_eq_of_lt hxt] at h4
  rw [Nat.mod_eq_of_lt hyt] at h4
  omega


theorem next_table_congr {m' m : Machine} {tf i : Nat}
    (h : m'.mem tf i = m.mem tf i) : next_table m' tf i = next_table m tf i := by
  unfold next_table
  rw [h]

/-- Translation depends only on the four cells the walk reads: if a
second machine agrees with `m` on those cells (along `m`'s walk), the
translation outcome — forgetting the halt state — is the same. -/
theorem translate_page_toOpt_congr (m' m : Machine) (root : Nat) (q : Page)
    (h4 : m'.mem root q.p4_index = m.mem root q.p4_index)
    (h3 : ∀ f3, next_table m root q.p4_index = some f3 →
      m'.mem f3 q.p3_index = m.mem f3 q.p3_index)
    (h2 : ∀ f3 f2, next_table m root q.p4_index = some f3 →
      next_table m f3 q.p3_index = some f2 →
      m'.mem f2 q.p2_index = m.mem f2 q.p2_index)
    (h1 : ∀ f3 f2 f1, next_table m root q.p4_index = some f3 →
      next_table m f3 q.p3_index = some f2 →
      next_table m f2 q.p2_index = some f1 →
      m'.mem f1 q.p1_index = m.mem f1 q.p1_index) :
    (translate_page m' root q).toOpt = (translate_page m root q).toOpt := by
  have e4 := next_table_congr h4
  unfold translate_page
  dsimp only
  rw [e4]
  rcases hnt4 : next_table m root q.p4_index with _ | f3
  · rfl
  · simp only [Option.some_bind]
    have c3 := h3 f3 hnt4
    have e3 := next_table_congr c3
    rw [e3]
    rcases hnt3 : next_table m f3 q.p3_index with _ | f2
    · simp only [Option.none_bind]
      unfold huge_fallback
      dsimp only
      rw [c3, e3, hnt3]
      rcases hp3 : (m.mem f3 q.p3_index).pointed_frame with _ | sf
      · rfl
      · dsimp only
        by_cases hh : (m.mem f3 q.p3_index).huge = true
        · rw [if_pos hh, if_pos hh]
          by_cases hal : sf % (512 * 512) = 0
          · rw [if_pos hal, if_pos hal]
          · rw [if_neg hal, if_neg hal]
            rfl
        · rw [if_neg hh, if_neg hh]
    · simp only [Option.some_bind]
      have c2 := h2 f3 f2 hnt4 hnt3
      have e2 := next_table_congr c2
      rw [e2]
      rcases hnt2 : next_table m f2 q.p2_index with _ | f1
      · simp only [Option.none_bind]
        unfold huge_fallback
        dsimp only
        rw [c3, e3, hnt3]
        dsimp only
        rw [c2]
        rcases hp3 : (m.mem f3 q.p3_index).pointed_frame with _ | sf
        · dsimp only
          rcases hp2 : (m.mem f2 q.p2_index).pointed_frame with _ | sf2
          · rfl
          · dsimp only
            by_cases hh2 : (m.mem f2 q.p2_index).huge = true
            · rw [if_pos hh2, if_pos hh2]
              by_cases hal : sf2 % 512 = 0
              · rw [if_pos hal, if_pos hal]
              · rw [if_neg hal, if_neg hal]
                rfl
            · rw [if_neg hh2, if_neg hh2]
        · dsimp only
          by_cases hh : (m.mem f3 q.p3_index).huge = true
          · rw [if_pos hh, if_pos hh]
            by_cases hal : sf % (512 * 512) = 0
            · rw [if_pos hal, if_pos hal]
            · rw [if_neg hal, if_neg hal]
              rfl
          · rw [if_neg hh, if_neg hh]
            rcases hp2 : (m.mem f2 q.p2_index).pointed_frame with _ | sf2
            · rfl
            · dsimp only
              by_cases hh2 : (m.mem f2 q.p2_index).huge = true
              · rw [if_pos hh2, if_pos hh2]
                by_cases hal : sf2 % 512 = 0
                · rw [if_pos hal, if_pos hal]
                · rw [if_neg hal, if_neg hal]
                  rfl
              · rw [if_neg hh2, if_neg hh2]
      · simp only [Option.some_bind]
        have c1 := h1 f3 f2 f1 hnt4 hnt3 hnt2
        rw [c1]
        rcases hp1 : (m.mem f1 q.p1_index).pointed_frame with _ | fr
        · dsimp only
          unfold huge_fallback
          dsimp only
          rw [c3, e3, hnt3]
          dsimp only
          rw [c2]
          rcases hp3 : (m.mem f3 q.p3_index).pointed_frame with _ | sf
          · dsimp only
            rcases hp2 : (m.mem f2 q.p2_index).pointed_frame with _ | sf2
            · rfl
            · dsimp only
              by_cases hh2 : (m.mem f2 q.p2_index).huge = true
              · rw [if_pos hh2, if_pos hh2]
                by_cases hal : sf2 % 512 = 0
                · rw [if_pos hal, if_pos hal]
                · rw [if_neg hal, if_neg hal]
                  rfl
              · rw [if_neg hh2, if_neg hh2]
          · dsimp only
            by_cases hh : (m.mem f3 q.p3_index).huge = true
            · rw [if_pos hh, if_pos hh]
              by_cases hal : sf % (512 * 512) = 0
              · rw [if_pos hal, if_pos hal]
              · rw [if_neg hal, if_neg hal]
                rfl
            · rw [if_neg hh, if_neg hh]
              rcases hp2 : (m.mem f2 q.p2_index).pointed_frame with _ | sf2
              · rfl
              · dsimp only
                by_cases hh2 : (m.mem f2 q.p2_index).huge = true
                · rw [if_pos hh2, if_pos hh2]
                  by_cases hal : sf2 % 512 = 0
                  · rw [if_pos hal, if_pos hal]
                  · rw [if_neg hal, if_neg hal]
                    rfl
                · rw [if_neg hh2, if_neg hh2]
        · rfl


theorem next_table_of_unused {m : Machine} {tf i : Nat}
    (h : m.mem tf i = Entry.unused) : next_table m tf i = none := by
  unfold next_table
  rw [h]
  rfl

/-- Walking into a completely zeroed P3 table translates to `None`. -/
theorem translate_page_zeroed3 {m : Machine} {root : Nat} {q : Page} {c : Nat}
    (h4 : next_table m root q.p4_index = some c)
    (hz : ∀ v, m.mem c v = Entry.unused) :
    translate_page m root q = .ok none := by
  have hn3 : next_table m c q.p3_index = none := next_table_of_unused (hz _)
  unfold translate_page
  dsimp only
  rw [h4]
  simp only [Option.some_bind]
  rw [hn3]
  simp only [Option.none_bind]
  unfold huge_fallback
  dsimp only
  rw [hz, hn3]
  rfl

/-- Walking into a zeroed P2 table behind an ordinary P3 entry
translates to `None`. -/
theorem translate_page_zeroed2 {m : Machine} {root : Nat} {q : Page} {a c : Nat}
    (h4 : next_table m root q.p4_index = some a)
    (h3 : next_table m a q.p3_index = some c)
    (hz : ∀ v, m.mem c v = Entry.unused) :
    translate_page m root q = .ok none := by
  obtain ⟨hp3, hh3, _⟩ := next_table_some h3
  have hn2 : next_table m c q.p2_index = none := next_table_of_unused (hz _)
  unfold translate_page
  dsimp only
  rw [h4]
  simp only [Option.some_bind]
  rw [h3]
  simp only [Option.some_bind]
  rw [hn2]
  simp only [Option.none_bind]
  unfold huge_fallback
  dsimp only
  have hpf3 : (m.mem a q.p3_index).pointed_frame =
      some (m.mem a q.p3_index).frameNo := by
    simp [Entry.pointed_frame, hp3]
  rw [hpf3]
  dsimp only
  rw [if_neg (by simp [hh3]), h3]
  dsimp only
  rw [hz]
  rfl

/-- Walking into a zeroed P1 table behind ordinary P4/P3/P2 entries
translates to `None`. -/
theorem translate_page_zeroed1 {m : Machine} {root : Nat} {q : Page} {f3 f2 cf : Nat}
    (h4 : next_table m root q.p4_index = some f3)
    (h3 : next_table m f3 q.p3_index = some f2)
    (h2 : next_table m f2 q.p2_index = some cf)
    (hz : ∀ v, m.mem cf v = Entry.unused) :
    translate_page m root q = .ok none := by
  apply translate_page_cleared h4 h3 h2
  rw [hz]
  rfl


theorem p2Of_eq {m : Machine} {root i j f3 f2 : Nat}
    (h3 : next_table m root i = some f3) (h2 : next_table m f3 j = some f2) :
    p2Of m root i j = some f2 := by
  unfold p2Of p3Of
  rw [h3]
  simpa using h2


theorem p1Of_eq {m : Machine} {root i j k f3 f2 f1 : Nat}
    (h3 : next_table m root i = some f3) (h2 : next_table m f3 j = some f2)
    (h1 : next_table m f2 k = some f1) :
    p1Of m root i j k = some f1 := by
  unfold p1Of
  rw [p2Of_eq h3 h2]
  simpa using h1


theorem p2Of_inv {m : Machine} {root i j f2 : Nat}
    (h : p2Of m root i j = some f2) :
    ∃ f3, next_table m root i = some f3 ∧ next_table m f3 j = some f2 := by
  unfold p2Of p3Of at h
  rcases hnt : next_table m root i with _ | f3
  · rw [hnt] at h
    exact absurd h (by simp)
  · rw [hnt] at h
    simp only [Option.some_bind] at h
    exact ⟨f3, rfl, h⟩


theorem p1Of_inv {m : Machine} {root i j k f1 : Nat}
    (h : p1Of m root i j k = some f1) :
    ∃ f3 f2, next_table m root i = some f3 ∧ next_table m f3 j = some f2 ∧
      next_table m f2 k = some f1 := by
  unfold p1Of at h
  rcases hp2 : p2Of m root i j with _ | f2
  · rw [hp2] at h
    exact absurd h (by simp)
  · rw [hp2] at h
    simp only [Option.some_bind] at h
    obtain ⟨f3, ha, hb⟩ := p2Of_inv hp2
    exact ⟨f3, f2, ha, hb, h⟩

/-- `next_table_create` either finds the existing child table and
leaves the machine alone, or allocates the head of the free list,
points the (previously non-present, non-huge) entry at it, and zeroes
it. -/
theorem ntc_cases {m : Machine} {tf i cf : Nat} {m1 : Machine}
    (h : next_table_create m tf i = .ok (cf, m1)) :
    (next_table m tf i = some cf ∧ m1 = m) ∨
    ((m.mem tf i).present = false ∧ (m.mem tf i).huge = false ∧
      next_table m tf i = none ∧
      ∃ rest, m.free = cf :: rest ∧
        m1 = zeroFrame (setEntry { m with free := rest } tf i
          ⟨true, true, false, cf⟩) cf) := by
  unfold next_table_create at h
  split at h
  · rename_i f heq
    cases h
    exact Or.inl ⟨heq, rfl⟩
  · rename_i heq
    split at h
    · exact KResult.noConfusion h
    · rename_i hhuge
      split at h
      · exact KResult.noConfusion h
      · rename_i g rest hfree
        cases h
        refine Or.inr ⟨?_, ?_, heq, rest, hfree, rfl⟩
        · by_contra hp
          have hp' : (m.mem tf i).present = true := by
            revert hp
            cases (m.mem tf i).present <;> simp
          have hh' : (m.mem tf i).huge = false := by
            revert hhuge
            cases (m.mem tf i).huge <;> simp
          unfold next_table at heq
          rw [if_pos ⟨hp', hh'⟩] at heq
          exact Option.noConfusion heq
        · revert hhuge
          cases (m.mem tf i).huge <;> simp

/-- Memory of the machine created by the allocating branch of
`next_table_create`. -/
theorem created_mem (m : Machine) (rest : List Nat) (tf i : Nat) (e : Entry)
    (cf : Nat) (u v : Nat) :
    (zeroFrame (setEntry { m with free := rest } tf i e) cf).mem u v =
      if u = cf then Entry.unused
      else if u = tf ∧ v = i then e else m.mem u v := rfl


theorem created_next_table (m : Machine) (rest : List Nat) (tf i cf : Nat)
    (hne : tf ≠ cf) (u v : Nat) :
    next_table (zeroFrame (setEntry { m with free := rest } tf i
      ⟨true, true, false, cf⟩) cf) u v =
      if u = cf then none
      else if u = tf ∧ v = i then some cf else next_table m u v := by
  by_cases hu : u = cf
  · subst hu
    unfold next_table
    rw [created_mem, if_pos rfl, if_pos rfl]
    rfl
  · by_cases huv : u = tf ∧ v = i
    · unfold next_table
      rw [created_mem, if_neg hu, if_pos huv, if_neg hu, if_pos huv]
      rfl
    · unfold next_table
      rw [created_mem, if_neg hu, if_neg huv, if_neg hu, if_neg huv]


theorem translate_page_nop4 {m : Machine} {root : Nat} {q : Page}
    (h4 : next_table m root q.p4_index = none) :
    translate_page m root q = .ok none := by
  unfold translate_page
  dsimp only
  rw [h4]
  rfl


theorem translate_page_nop3 {m : Machine} {root : Nat} {q : Page} {a : Nat}
    (h4 : next_table m root q.p4_index = some a)
    (h3 : next_table m a q.p3_index = none)
    (hpf : (m.mem a q.p3_index).pointed_frame = none) :
    translate_page m root q = .ok none := by
  unfold translate_page
  dsimp only
  rw [h4]
  simp only [Option.some_bind]
  rw [h3]
  simp only [Option.none_bind]
  unfold huge_fallback
  dsimp only
  rw [hpf, h3]


theorem translate_page_nop2 {m : Machine} {root : Nat} {q : Page} {a b : Nat}
    (h4 : next_table m root q.p4_index = some a)
    (h3 : next_table m a q.p3_index = some b)
    (h2 : next_table m b q.p2_index = none)
    (hpf : (m.mem b q.p2_index).pointed_frame = none) :
    translate_page m root q = .ok none := by
  obtain ⟨hp3, hh3, _⟩ := next_table_some h3
  unfold translate_page
  dsimp only
  rw [h4]
  simp only [Option.some_bind]
  rw [h3]
  simp only [Option.some_bind]
  rw [h2]
  simp only [Option.none_bind]
  unfold huge_fallback
  dsimp only
  have hpf3 : (m.mem a q.p3_index).pointed_frame =
      some (m.mem a q.p3_index).frameNo := by
    simp [Entry.pointed_frame, hp3]
  rw [hpf3]
  dsimp only
  rw [if_neg (by simp [hh3]), h3]
  dsimp only
  rw [hpf]

/-- Effect of `next_table_create` at the P4 root on the whole tree:
only the one P4 slot changes; every walk, and every translation
outcome, is preserved. -/
theorem ntc_root_spec {m : Machine} {root a cf : Nat} {m1 : Machine}
    (hwf : WF m root) (ha : a < 512)
    (h : next_table_create m root a = .ok (cf, m1)) :
    WF m1 root ∧
    p3Of m1 root a = some cf ∧
    (∀ x, x ≠ a → p3Of m1 root x = p3Of m root x) ∧
    (∀ x y, x < 512 → p2Of m1 root x y = p2Of m root x y) ∧
    (∀ x y z, x < 512 → y < 512 → p1Of m1 root x y z = p1Of m root x y z) ∧
    (∀ q : Page, (translate_page m1 root q).toOpt = (translate_page m root q).toOpt) ∧
    m1.cr3 = m.cr3 ∧ m1.tlb = m.tlb ∧ (∀ g, g ∈ m1.free → g ∈ m.free) := by
  rcases ntc_cases h with ⟨hnt, rfl⟩ | ⟨hpres, hhuge, hnone, rest, hfree, rfl⟩
  · exact ⟨hwf, hnt, fun _ _ => rfl, fun _ _ _ => rfl, fun _ _ _ _ _ => rfl,
      fun _ => rfl, rfl, rfl, fun _ hg => hg⟩
  · set mC := zeroFrame (setEntry { m with free := rest } root a
      ⟨true, true, false, cf⟩) cf with hmC
    have hcfmem : cf ∈ m.free := by
      rw [hfree]
      exact List.mem_cons_self _ _
    obtain ⟨hcfroot, hcf3, hcf2, hcf1⟩ := hwf.freeFresh cf hcfmem
    have hrootcf : root ≠ cf := fun hh => hcfroot hh.symm
    have hnext : ∀ u v, next_table mC u v =
        if u = cf then none
        else if u = root ∧ v = a then some cf else next_table m u v := by
      intro u v
      rw [hmC]
      exact created_next_table m rest root a cf hrootcf u v
    have hzero : ∀ v, mC.mem cf v = Entry.unused := by
      intro v
      rw [hmC, created_mem, if_pos rfl]
    have hp3a : p3Of mC root a = some cf := by
      show next_table mC root a = some cf
      rw [hnext, if_neg hrootcf, if_pos ⟨rfl, rfl⟩]
    have hp3o : ∀ x, x ≠ a → p3Of mC root x = p3Of m root x := by
      intro x hx
      show next_table mC root x = next_table m root x
      rw [hnext, if_neg hrootcf, if_neg (fun hc => hx hc.2)]
    have hp2 : ∀ x y, x < 512 → p2Of mC root x y = p2Of m root x y := by
      intro x y hx
      by_cases hxa : x = a
      · subst hxa
        have hmnone : p3Of m root x = none := hnone
        unfold p2Of
        rw [hp3a, hmnone]
        simp only [Option.some_bind, Option.none_bind]
        rw [hnext, if_pos rfl]
      · unfold p2Of
        rw [hp3o x hxa]
        rcases hg : p3Of m root x with _ | g
        · rfl
        · simp only [Option.some_bind]
          have hgcf : g ≠ cf := fun hh => hcf3 x hx (hh ▸ hg)
          have hgroot : g ≠ root := hwf.ne03 hx hg
          rw [hnext, if_neg hgcf, if_neg (fun hc => hgroot hc.1)]
    have hp1 : ∀ x y z, x < 512 → y < 512 →
        p1Of mC root x y z = p1Of m root x y z := by
      intro x y z hx hy
      unfold p1Of
      rw [hp2 x y hx]
      rcases hg : p2Of m root x y with _ | g2
      · rfl
      · simp only [Option.some_bind]
        have hgcf : g2 ≠ cf := fun hh => hcf2 x y hx hy (hh ▸ hg)
        have hgroot : g2 ≠ root := hwf.ne02 hx hy hg
        rw [hnext, if_neg hgcf, if_neg (fun hc => hgroot hc.1)]
    have htr : ∀ q : Page,
        (translate_page mC root q).toOpt = (translate_page m root q).toOpt := by
      intro q
      by_cases hq4 : q.p4_index = a
      · have hL : translate_page mC root q = .ok none := by
          apply translate_page_zeroed3 (c := cf)
          · show next_table mC root q.p4_index = some cf
            rw [hq4]
            exact hp3a
          · exact hzero
        have hR : translate_page m root q = .ok none :=
          translate_page_nop4 (by rw [hq4]; exact hnone)
        rw [hL, hR]
      · apply translate_page_toOpt_congr
        · rw [hmC, created_mem, if_neg hrootcf, if_neg (fun hc => hq4 hc.2)]
        · intro f3 h3
          have hf3 : p3Of m root q.p4_index = some f3 := h3
          have hne : f3 ≠ cf := fun hh => hcf3 _ (p4_index_lt q) (hh ▸ hf3)
          have hr : f3 ≠ root := hwf.ne03 (p4_index_lt q) hf3
          rw [hmC, created_mem, if_neg hne, if_neg (fun hc => hr hc.1)]
        · intro f3 f2 h3 h2
          have hf2 : p2Of m root q.p4_index q.p3_index = some f2 := p2Of_eq h3 h2
          have hne : f2 ≠ cf :=
            fun hh => hcf2 _ _ (p4_index_lt q) (p3_index_lt q) (hh ▸ hf2)
          have hr : f2 ≠ root := hwf.ne02 (p4_index_lt q) (p3_index_lt q) hf2
          rw [hmC, created_mem, if_neg hne, if_neg (fun hc => hr hc.1)]
        · intro f3 f2 f1 h3 h2 h1
          have hf1 : p1Of m root q.p4_index q.p3_index q.p2_index = some f1 :=
            p1Of_eq h3 h2 h1
          have hne : f1 ≠ cf := fun hh =>
            hcf1 _ _ _ (p4_index_lt q) (p3_index_lt q) (p2_index_lt q) (hh ▸ hf1)
          have hr : f1 ≠ root :=
            hwf.ne01 (p4_index_lt q) (p3_index_lt q) (p2_index_lt q) hf1
          rw [hmC, created_mem, if_neg hne, if_neg (fun hc => hr hc.1)]
    have hndrest := hwf.freeND
    rw [hfree, List.nodup_cons] at hndrest
    have hWF : WF mC root := by
      refine ⟨?_, ?_, ?_, ?_, ?_, ?_, ?_, ?_, ?_, hndrest.2, ?_⟩
      · intro i f hi hp
        by_cases hia : i = a
        · subst hia
          rw [hp3a] at hp
          cases hp
          exact fun hh => hcfroot hh
        · rw [hp3o i hia] at hp
          exact hwf.ne03 hi hp
      · intro i j f hi hj hp
        rw [hp2 i j hi] at hp
        exact hwf.ne02 hi hj hp
      · intro i j k f hi hj hk hp
        rw [hp1 i j k hi hj] at hp
        exact hwf.ne01 hi hj hk hp
      · intro i i' j' f hi hi' hj' hp hq
        rw [hp2 i' j' hi'] at hq
        by_cases hia : i = a
        · subst hia
          rw [hp3a] at hp
          cases hp
          exact hcf2 i' j' hi' hj' hq
        · rw [hp3o i hia] at hp
          exact hwf.ne32 hi hi' hj' hp hq
      · intro i i' j' k' f hi hi' hj' hk' hp hq
        rw [hp1 i' j' k' hi' hj'] at hq
        by_cases hia : i = a
        · subst hia
          rw [hp3a] at hp
          cases hp
          exact hcf1 i' j' k' hi' hj' hk' hq
        · rw [hp3o i hia] at hp
          exact hwf.ne31 hi hi' hj' hk' hp hq
      · intro i j i' j' k' f hi hj hi' hj' hk' hp hq
        rw [hp2 i j hi] at hp
        rw [hp1 i' j' k' hi' hj'] at hq
        exact hwf.ne21 hi hj hi' hj' hk' hp hq
      · intro i i' f hi hi' hp hq
        by_cases hia : i = a <;> by_cases hia' : i' = a
        · rw [hia, hia']
        · subst hia
          rw [hp3a] at hp
          cases hp
          rw [hp3o i' hia'] at hq
          exact absurd hq (hcf3 i' hi')
        · subst hia'
          rw [hp3a] at hq
          cases hq
          rw [hp3o i hia] at hp
          exact absurd hp (hcf3 i hi)
        · rw [hp3o i hia] at hp
          rw [hp3o i' hia'] at hq
          exact hwf.inj3 hi hi' hp hq
      · intro i j i' j' f hi hj hi' hj' hp hq
        rw [hp2 i j hi] at hp
        rw [hp2 i' j' hi'] at hq
        exact hwf.inj2 hi hj hi' hj' hp hq
      · intro i j k i' j' k' f hi hj hk hi' hj' hk' hp hq
        rw [hp1 i j k hi hj] at hp
        rw [hp1 i' j' k' hi' hj'] at hq
        exact hwf.inj1 hi hj hk hi' hj' hk' hp hq
      · intro g hg
        have hgm : g ∈ m.free := by
          rw [hfree]
          exact List.mem_cons_of_mem _ hg
        obtain ⟨hgroot, h3g, h2g, h1g⟩ := hwf.freeFresh g hgm
        refine ⟨hgroot, ?_, ?_, ?_⟩
        · intro i hi
          by_cases hia : i = a
          · subst hia
            rw [hp3a]
            intro hh
            injection hh with hh'
            exact hndrest.1 (hh' ▸ hg)
          · rw [hp3o i hia]
            exact h3g i hi
        · intro i j hi hj
          rw [hp2 i j hi]
          exact h2g i j hi hj
        · intro i j k hi hj hk
          rw [hp1 i j k hi hj]
          exact h1g i j k hi hj hk
    refine ⟨hWF, hp3a, hp3o, hp2, hp1, htr, rfl, rfl, ?_⟩
    intro g hg
    rw [hfree]
    exact List.mem_cons_of_mem _ hg

/-- Effect of `next_table_create` at a P3 table (reached via P4 index
`a`): only the `(a, b)` P2-walk changes; every translation outcome is
preserved. -/
theorem ntc_p3_spec {m : Machine} {root a b f3 cf : Nat} {m1 : Machine}
    (hwf : WF m root) (ha : a < 512) (hb : b < 512)
    (hpar : p3Of m root a = some f3)
    (h : next_table_create m f3 b = .ok (cf, m1)) :
    WF m1 root ∧
    p2Of m1 root a b = some cf ∧
    (∀ x, p3Of m1 root x = p3Of m root x) ∧
    (∀ x y, x < 512 → ¬(x = a ∧ y = b) → p2Of m1 root x y = p2Of m root x y) ∧
    (∀ x y z, x < 512 → y < 512 → p1Of m1 root x y z = p1Of m root x y z) ∧
    (∀ q : Page, (translate_page m1 root q).toOpt = (translate_page m root q).toOpt) ∧
    m1.cr3 = m.cr3 ∧ m1.tlb = m.tlb ∧ (∀ g, g ∈ m1.free → g ∈ m.free) := by
  have hf3root : f3 ≠ root := hwf.ne03 ha hpar
  rcases ntc_cases h with ⟨hnt, rfl⟩ | ⟨hpres, hhuge, hnone, rest, hfree, rfl⟩
  · exact ⟨hwf, p2Of_eq hpar hnt, fun _ => rfl, fun _ _ _ _ => rfl,
      fun _ _ _ _ _ => rfl, fun _ => rfl, rfl, rfl, fun _ hg => hg⟩
  · set mC := zeroFrame (setEntry { m with free := rest } f3 b
      ⟨true, true, false, cf⟩) cf with hmC
    have hcfmem : cf ∈ m.free := by
      rw [hfree]
      exact List.mem_cons_self _ _
    obtain ⟨hcfroot, hcf3, hcf2, hcf1⟩ := hwf.freeFresh cf hcfmem
    have hf3cf : f3 ≠ cf := fun hh => hcf3 a ha (hh ▸ hpar)
    have hrootcf : root ≠ cf := fun hh => hcfroot hh.symm
    have hrootf3 : root ≠ f3 := fun hh => hf3root hh.symm
    have hnext : ∀ u v, next_table mC u v =
        if u = cf then none
        else if u = f3 ∧ v = b then some cf else next_table m u v := by
      intro u v
      rw [hmC]
      exact created_next_table m rest f3 b cf hf3cf u v
    have hzero : ∀ v, mC.mem cf v = Entry.unused := by
      intro v
      rw [hmC, created_mem, if_pos rfl]
    have hp3 : ∀ x, p3Of mC root x = p3Of m root x := by
      intro x
      show next_table mC root x = next_table m root x
      rw [hnext, if_neg hrootcf, if_neg (fun hc => hrootf3 hc.1)]
    have hp2ab : p2Of mC root a b = some cf := by
      unfold p2Of
      rw [hp3 a, hpar]
      simp only [Option.some_bind]
      rw [hnext, if_neg hf3cf, if_pos ⟨rfl, rfl⟩]
    have hp2o : ∀ x y, x < 512 → ¬(x = a ∧ y = b) →
        p2Of mC root x y = p2Of m root x y := by
      intro x y hx hxy
      unfold p2Of
      rw [hp3 x]
      rcases hg : p3Of m root x with _ | g
      · rfl
      · simp only [Option.some_bind]
        have hgcf : g ≠ cf := fun hh => hcf3 x hx (hh ▸ hg)
        by_cases hgf3 : g = f3
        · subst hgf3
          have hxa : x = a := hwf.inj3 hx ha hg hpar
          have hyb : y ≠ b := fun hh => hxy ⟨hxa, hh⟩
          rw [hnext, if_neg hgcf, if_neg (fun hc => hyb hc.2)]
        · rw [hnext, if_neg hgcf, if_neg (fun hc => hgf3 hc.1)]
    have hmab : p2Of m root a b = none := by
      unfold p2Of
      rw [hpar]
      simpa using hnone
    have hp1 : ∀ x y z, x < 512 → y < 512 →
        p1Of mC root x y z = p1Of m root x y z := by
      intro x y z hx hy
      unfold p1Of
      by_cases hxy : x = a ∧ y = b
      · obtain ⟨rfl, rfl⟩ := hxy
        rw [hp2ab, hmab]
        simp only [Option.some_bind, Option.none_bind]
        rw [hnext, if_pos rfl]
      · rw [hp2o x y hx hxy]
        rcases hg : p2Of m root x y with _ | g2
        · rfl
        · simp only [Option.some_bind]
          have hgcf : g2 ≠ cf := fun hh => hcf2 x y hx hy (hh ▸ hg)
          have hgf3 : g2 ≠ f3 := fun hh => hwf.ne32 ha hx hy hpar (hh ▸ hg)
          rw [hnext, if_neg hgcf, if_neg (fun hc => hgf3 hc.1)]
    have htr : ∀ q : Page,
        (translate_page mC root q).toOpt = (translate_page m root q).toOpt := by
      intro q
      by_cases hq : q.p4_index = a ∧ q.p3_index = b
      · obtain ⟨hq4, hq3⟩ := hq
        have hL : translate_page mC root q = .ok none := by
          apply translate_page_zeroed2 (a := f3) (c := cf)
          · show p3Of mC root q.p4_index = some f3
            rw [hp3 q.p4_index, hq4]
            exact hpar
          · rw [hq3]
            rw [hnext, if_neg hf3cf, if_pos ⟨rfl, rfl⟩]
          · exact hzero
        have hR : translate_page m root q = .ok none := by
          apply translate_page_nop3 (a := f3)
          · rw [hq4]
            exact hpar
          · rw [hq3]
            exact hnone
          · rw [hq3]
            simp [Entry.pointed_frame, hpres]
        rw [hL, hR]
      · apply translate_page_toOpt_congr
        · rw [hmC, created_mem, if_neg hrootcf, if_neg (fun hc => hrootf3 hc.1)]
        · intro f3' h3
          have hne : f3' ≠ cf := fun hh => hcf3 _ (p4_index_lt q) (hh ▸ h3)
          rw [hmC, created_mem, if_neg hne, if_neg]
          intro hc
          apply hq
          refine ⟨?_, hc.2⟩
          exact hwf.inj3 (p4_index_lt q) ha (hc.1 ▸ h3) hpar
        · intro f3' f2' h3 h2
          have hf2 : p2Of m root q.p4_index q.p3_index = some f2' := p2Of_eq h3 h2
          have hne : f2' ≠ cf :=
            fun hh => hcf2 _ _ (p4_index_lt q) (p3_index_lt q) (hh ▸ hf2)
          have hne3 : f2' ≠ f3 :=
            fun hh => hwf.ne32 ha (p4_index_lt q) (p3_index_lt q) hpar (hh ▸ hf2)
          rw [hmC, created_mem, if_neg hne, if_neg (fun hc => hne3 hc.1)]
        · intro f3' f2' f1' h3 h2 h1
          have hf1 : p1Of m root q.p4_index q.p3_index q.p2_index = some f1' :=
            p1Of_eq h3 h2 h1
          have hne : f1' ≠ cf := fun hh =>
            hcf1 _ _ _ (p4_index_lt q) (p3_index_lt q) (p2_index_lt q) (hh ▸ hf1)
          have hne3 : f1' ≠ f3 := fun hh =>
            hwf.ne31 ha (p4_index_lt q) (p3_index_lt q) (p2_index_lt q) hpar
              (hh ▸ hf1)
          rw [hmC, created_mem, if_neg hne, if_neg (fun hc => hne3 hc.1)]
    have hndrest := hwf.freeND
    rw [hfree, List.nodup_cons] at hndrest
    have hWF : WF mC root := by
      refine ⟨?_, ?_, ?_, ?_, ?_, ?_, ?_, ?_, ?_, hndrest.2, ?_⟩
      · intro i f hi hp
        rw [hp3 i] at hp
        exact hwf.ne03 hi hp
      · intro i j f hi hj hp
        by_cases hij : i = a ∧ j = b
        · obtain ⟨rfl, rfl⟩ := hij
          rw [hp2ab] at hp
          cases hp
          exact fun hh => hcfroot hh
        · rw [hp2o i j hi hij] at hp
          exact hwf.ne02 hi hj hp
      · intro i j k f hi hj hk hp
        rw [hp1 i j k hi hj] at hp
        exact hwf.ne01 hi hj hk hp
      · intro i i' j' f hi hi' hj' hp hq
        rw [hp3 i] at hp
        by_cases hij : i' = a ∧ j' = b
        · obtain ⟨rfl, rfl⟩ := hij
          rw [hp2ab] at hq
          cases hq
          exact absurd hp (hcf3 i hi)
        · rw [hp2o i' j' hi' hij] at hq
          exact hwf.ne32 hi hi' hj' hp hq
      · intro i i' j' k' f hi hi' hj' hk' hp hq
        rw [hp3 i] at hp
        rw [hp1 i' j' k' hi' hj'] at hq
        exact hwf.ne31 hi hi' hj' hk' hp hq
      · intro i j i' j' k' f hi hj hi' hj' hk' hp hq
        rw [hp1 i' j' k' hi' hj'] at hq
        by_cases hij : i = a ∧ j = b
        · obtain ⟨rfl, rfl⟩ := hij
          rw [hp2ab] at hp
          cases hp
          exact hcf1 i' j' k' hi' hj' hk' hq
        · rw [hp2o i j hi hij] at hp
          exact hwf.ne21 hi hj hi' hj' hk' hp hq
      · intro i i' f hi hi' hp hq
        rw [hp3 i] at hp
        rw [hp3 i'] at hq
        exact hwf.inj3 hi hi' hp hq
      · intro i j i' j' f hi hj hi' hj' hp hq
        by_cases hij : i = a ∧ j = b <;> by_cases hij' : i' = a ∧ j' = b
        · exact ⟨hij.1.trans hij'.1.symm, hij.2.trans hij'.2.symm⟩
        · obtain ⟨rfl, rfl⟩ := hij
          rw [hp2ab] at hp
          cases hp
          rw [hp2o i' j' hi' hij'] at hq
          exact absurd hq (hcf2 i' j' hi' hj')
        · obtain ⟨rfl, rfl⟩ := hij'
          rw [hp2ab] at hq
          cases hq
          rw [hp2o i j hi hij] at hp
          exact absurd hp (hcf2 i j hi hj)
        · rw [hp2o i j hi hij] at hp
          rw [hp2o i' j' hi' hij'] at hq
          exact hwf.inj2 hi hj hi' hj' hp hq
      · intro i j k i' j' k' f hi hj hk hi' hj' hk' hp hq
        rw [hp1 i j k hi hj] at hp
        rw [hp1 i' j' k' hi' hj'] at hq
        exact hwf.inj1 hi hj hk hi' hj' hk' hp hq
      · intro g hg
        have hgm : g ∈ m.free := by
          rw [hfree]
          exact List.mem_cons_of_mem _ hg
        obtain ⟨hgroot, h3g, h2g, h1g⟩ := hwf.freeFresh g hgm
        refine ⟨hgroot, ?_, ?_, ?_⟩
        · intro i hi
          rw [hp3 i]
          exact h3g i hi
        · intro i j hi hj
          by_cases hij : i = a ∧ j = b
          · obtain ⟨rfl, rfl⟩ := hij
            rw [hp2ab]
            intro hh
            injection hh with hh'
            exact hndrest.1 (hh' ▸ hg)
          · rw [hp2o i j hi hij]
            exact h2g i j hi hj
        · intro i j k hi hj hk
          rw [hp1 i j k hi hj]
          exact h1g i j k hi hj hk
    refine ⟨hWF, hp2ab, hp3, hp2o, hp1, htr, rfl, rfl, ?_⟩
    intro g hg
    rw [hfree]
    exact List.mem_cons_of_mem _ hg

/-- Effect of `next_table_create` at a P2 table (reached via indices
`a`, `b`): only the `(a, b, c)` P1-walk changes; every translation
outcome is preserved. -/
theorem ntc_p2_spec {m : Machine} {root a b c f2 cf : Nat} {m1 : Machine}
    (hwf : WF m root) (ha : a < 512) (hb : b < 512) (hc : c < 512)
    (hpar : p2Of m root a b = some f2)
    (h : next_table_create m f2 c = .ok (cf, m1)) :
    WF m1 root ∧
    p1Of m1 root a b c = some cf ∧
    (∀ x, p3Of m1 root x = p3Of m root x) ∧
    (∀ x y, x < 512 → p2Of m1 root x y = p2Of m root x y) ∧
    (∀ x y z, x < 512 → y < 512 → ¬(x = a ∧ y = b ∧ z = c) →
      p1Of m1 root x y z = p1Of m root x y z) ∧
    (∀ q : Page, (translate_page m1 root q).toOpt = (translate_page m root q).toOpt) ∧
    m1.cr3 = m.cr3 ∧ m1.tlb = m.tlb ∧ (∀ g, g ∈ m1.free → g ∈ m.free) := by
  have hf2root : f2 ≠ root := hwf.ne02 ha hb hpar
  rcases ntc_cases h with ⟨hnt, rfl⟩ | ⟨hpres, hhuge, hnone, rest, hfree, rfl⟩
  · refine ⟨hwf, ?_, fun _ => rfl, fun _ _ _ => rfl, fun _ _ _ _ _ _ => rfl,
      fun _ => rfl, rfl, rfl, fun _ hg => hg⟩
    unfold p1Of
    rw [hpar]
    simpa using hnt
  · set mC := zeroFrame (setEntry { m with free := rest } f2 c
      ⟨true, true, false, cf⟩) cf with hmC
    have hcfmem : cf ∈ m.free := by
      rw [hfree]
      exact List.mem_cons_self _ _
    obtain ⟨hcfroot, hcf3, hcf2, hcf1⟩ := hwf.freeFresh cf hcfmem
    have hf2cf : f2 ≠ cf := fun hh => hcf2 a b ha hb (hh ▸ hpar)
    have hrootcf : root ≠ cf := fun hh => hcfroot hh.symm
    have hrootf2 : root ≠ f2 := fun hh => hf2root hh.symm
    have hnext : ∀ u v, next_table mC u v =
        if u = cf then none
        else if u = f2 ∧ v = c then some cf else next_table m u v := by
      intro u v
      rw [hmC]
      exact created_next_table m rest f2 c cf hf2cf u v
    have hzero : ∀ v, mC.mem cf v = Entry.unused := by
      intro v
      rw [hmC, created_mem, if_pos rfl]
    have hp3 : ∀ x, p3Of mC root x = p3Of m root x := by
      intro x
      show next_table mC root x = next_table m root x
      rw [hnext, if_neg hrootcf, if_neg (fun hh => hrootf2 hh.1)]
    have hp2 : ∀ x y, x < 512 → p2Of mC root x y = p2Of m root x y := by
      intro x y hx
      unfold p2Of
      rw [hp3 x]
      rcases hg : p3Of m root x with _ | g
      · rfl
      · simp only [Option.some_bind]
        have hgcf : g ≠ cf := fun hh => hcf3 x hx (hh ▸ hg)
        have hgf2 : g ≠ f2 := by
          intro hh
          exact hwf.ne32 hx ha hb hg (hh ▸ hpar)
        rw [hnext, if_neg hgcf, if_neg (fun hh => hgf2 hh.1)]
    have hp1abc : p1Of mC root a b c = some cf := by
      unfold p1Of
      rw [hp2 a b ha, hpar]
      simp only [Option.some_bind]
      rw [hnext, if_neg hf2cf, if_pos ⟨rfl, rfl⟩]
    have hmabc : p1Of m root a b c = none := by
      unfold p1Of
      rw [hpar]
      simpa using hnone
    have hp1o : ∀ x y z, x < 512 → y < 512 → ¬(x = a ∧ y = b ∧ z = c) →
        p1Of mC root x y z = p1Of m root x y z := by
      intro x y z hx hy hxyz
      unfold p1Of
      rw [hp2 x y hx]
      rcases hg : p2Of m root x y with _ | g2
      · rfl
      · simp only [Option.some_bind]
        have hgcf : g2 ≠ cf := fun hh => hcf2 x y hx hy (hh ▸ hg)
        by_cases hgf2 : g2 = f2
        · subst hgf2
          obtain ⟨hxa, hyb⟩ := hwf.inj2 hx hy ha hb hg hpar
          have hzc : z ≠ c := fun hh => hxyz ⟨hxa, hyb, hh⟩
          rw [hnext, if_neg hgcf, if_neg (fun hh => hzc hh.2)]
        · rw [hnext, if_neg hgcf, if_neg (fun hh => hgf2 hh.1)]
    obtain ⟨f3w, h3w, h2w⟩ := p2Of_inv hpar
    have hf3wcf : f3w ≠ cf := fun hh => hcf3 a ha (hh ▸ h3w)
    have hf3wf2 : f3w ≠ f2 := by
      intro hh
      exact hwf.ne32 ha ha hb h3w (hh ▸ hpar)
    have htr : ∀ q : Page,
        (translate_page mC root q).toOpt = (translate_page m root q).toOpt := by
      intro q
      by_cases hq : q.p4_index = a ∧ q.p3_index = b ∧ q.p2_index = c
      · obtain ⟨hq4, hq3, hq2⟩ := hq
        have hnt4 : next_table mC root q.p4_index = some f3w := by
          rw [hq4, hnext, if_neg hrootcf, if_neg (fun hh => hrootf2 hh.1)]
          exact h3w
        have hnt3 : next_table mC f3w q.p3_index = some f2 := by
          rw [hq3, hnext, if_neg hf3wcf, if_neg (fun hh => hf3wf2 hh.1)]
          exact h2w
        have hnt2 : next_table mC f2 q.p2_index = some cf := by
          rw [hq2, hnext, if_neg hf2cf, if_pos ⟨rfl, rfl⟩]
        have hL : translate_page mC root q = .ok none :=
          translate_page_zeroed1 hnt4 hnt3 hnt2 hzero
        have hR : translate_page m root q = .ok none := by
          apply translate_page_nop2 (a := f3w) (b := f2)
          · rw [hq4]
            exact h3w
          · rw [hq3]
            exact h2w
          · rw [hq2]
            exact hnone
          · rw [hq2]
            simp [Entry.pointed_frame, hpres]
        rw [hL, hR]
      · apply translate_page_toOpt_congr
        · rw [hmC, created_mem, if_neg hrootcf, if_neg (fun hh => hrootf2 hh.1)]
        · intro f3' h3
          have hne : f3' ≠ cf := fun hh => hcf3 _ (p4_index_lt q) (hh ▸ h3)
          have hne2 : f3' ≠ f2 := by
            intro hh
            exact hwf.ne32 (p4_index_lt q) ha hb h3 (hh ▸ hpar)
          rw [hmC, created_mem, if_neg hne, if_neg (fun hh => hne2 hh.1)]
        · intro f3' f2' h3 h2
          have hf2' : p2Of m root q.p4_index q.p3_index = some f2' := p2Of_eq h3 h2
          have hne : f2' ≠ cf :=
            fun hh => hcf2 _ _ (p4_index_lt q) (p3_index_lt q) (hh ▸ hf2')
          rw [hmC, created_mem, if_neg hne, if_neg]
          intro hh
          apply hq
          obtain ⟨hxa, hyb⟩ := hwf.inj2 (p4_index_lt q) (p3_index_lt q) ha hb
            (hh.1 ▸ hf2') hpar
          exact ⟨hxa, hyb, hh.2⟩
        · intro f3' f2' f1' h3 h2 h1
          have hf1' : p1Of m root q.p4_index q.p3_index q.p2_index = some f1' :=
            p1Of_eq h3 h2 h1
          have hne : f1' ≠ cf := fun hh =>
            hcf1 _ _ _ (p4_index_lt q) (p3_index_lt q) (p2_index_lt q) (hh ▸ hf1')
          have hne2 : f1' ≠ f2 := by
            intro hh
            exact hwf.ne21 ha hb (p4_index_lt q) (p3_index_lt q) (p2_index_lt q)
              hpar (hh ▸ hf1')
          rw [hmC, created_mem, if_neg hne, if_neg (fun hh => hne2 hh.1)]
    have hndrest := hwf.freeND
    rw [hfree, List.nodup_cons] at hndrest
    have hWF : WF mC root := by
      refine ⟨?_, ?_, ?_, ?_, ?_, ?_, ?_, ?_, ?_, hndrest.2, ?_⟩
      · intro i f hi hp
        rw [hp3 i] at hp
        exact hwf.ne03 hi hp
      · intro i j f hi hj hp
        rw [hp2 i j hi] at hp
        exact hwf.ne02 hi hj hp
      · intro i j k f hi hj hk hp
        by_cases hijk : i = a ∧ j = b ∧ k = c
        · obtain ⟨rfl, rfl, rfl⟩ := hijk
          rw [hp1abc] at hp
          cases hp
          exact fun hh => hcfroot hh
        · rw [hp1o i j k hi hj hijk] at hp
          exact hwf.ne01 hi hj hk hp
      · intro i i' j' f hi hi' hj' hp hq
        rw [hp3 i] at hp
        rw [hp2 i' j' hi'] at hq
        exact hwf.ne32 hi hi' hj' hp hq
      · intro i i' j' k' f hi hi' hj' hk' hp hq
        rw [hp3 i] at hp
        by_cases hijk : i' = a ∧ j' = b ∧ k' = c
        · obtain ⟨rfl, rfl, rfl⟩ := hijk
          rw [hp1abc] at hq
          cases hq
          exact absurd hp (hcf3 i hi)
        · rw [hp1o i' j' k' hi' hj' hijk] at hq
          exact hwf.ne31 hi hi' hj' hk' hp hq
      · intro i j i' j' k' f hi hj hi' hj' hk' hp hq
        rw [hp2 i j hi] at hp
        by_cases hijk : i' = a ∧ j' = b ∧ k' = c
        · obtain ⟨rfl, rfl, rfl⟩ := hijk
          rw [hp1abc] at hq
          cases hq
          exact absurd hp (hcf2 i j hi hj)
        · rw [hp1o i' j' k' hi' hj' hijk] at hq
          exact hwf.ne21 hi hj hi' hj' hk' hp hq
      · intro i i' f hi hi' hp hq
        rw [hp3 i] at hp
        rw [hp3 i'] at hq
        exact hwf.inj3 hi hi' hp hq
      · intro i j i' j' f hi hj hi' hj' hp hq
        rw [hp2 i j hi] at hp
        rw [hp2 i' j' hi'] at hq
        exact hwf.inj2 hi hj hi' hj' hp hq
      · intro i j k i' j' k' f hi hj hk hi' hj' hk' hp hq
        by_cases hijk : i = a ∧ j = b ∧ k = c <;>
          by_cases hijk' : i' = a ∧ j' = b ∧ k' = c
        · exact ⟨hijk.1.trans hijk'.1.symm, hijk.2.1.trans hijk'.2.1.symm,
            hijk.2.2.trans hijk'.2.2.symm⟩
        · obtain ⟨rfl, rfl, rfl⟩ := hijk
          rw [hp1abc] at hp
          cases hp
          rw [hp1o i' j' k' hi' hj' hijk'] at hq
          exact absurd hq (hcf1 i' j' k' hi' hj' hk')
        · obtain ⟨rfl, rfl, rfl⟩ := hijk'
          rw [hp1abc] at hq
          cases hq
          rw [hp1o i j k hi hj hijk] at hp
          exact absurd hp (hcf1 i j k hi hj hk)
        · rw [hp1o i j k hi hj hijk] at hp
          rw [hp1o i' j' k' hi' hj' hijk'] at hq
          exact hwf.inj1 hi hj hk hi' hj' hk' hp hq
      · intro g hg
        have hgm : g ∈ m.free := by
          rw [hfree]
          exact List.mem_cons_of_mem _ hg
        obtain ⟨hgroot, h3g, h2g, h1g⟩ := hwf.freeFresh g hgm
        refine ⟨hgroot, ?_, ?_, ?_⟩
        · intro i hi
          rw [hp3 i]
          exact h3g i hi
        · intro i j hi hj
          rw [hp2 i j hi]
          exact h2g i j hi hj
        · intro i j k hi hj hk
          by_cases hijk : i = a ∧ j = b ∧ k = c
          · obtain ⟨rfl, rfl, rfl⟩ := hijk
            rw [hp1abc]
            intro hh
            injection hh with hh'
            exact hndrest.1 (hh' ▸ hg)
          · rw [hp1o i j k hi hj hijk]
            exact h1g i j k hi hj hk
    refine ⟨hWF, hp1abc, hp3, hp2, hp1o, htr, rfl, rfl, ?_⟩
    intro g hg
    rw [hfree]
    exact List.mem_cons_of_mem _ hg

/-- Effect of writing a P1 leaf entry: no walk changes at all, and
every page with a different index tuple translates as before. -/
theorem leaf_write_spec {m : Machine} {root a b c d f1 : Nat} {E : Entry}
    (hwf : WF m root) (ha : a < 512) (hb : b < 512) (hc : c < 512)
    (hpar : p1Of m root a b c = some f1) :
    WF (setEntry m f1 d E) root ∧
    (∀ x, p3Of (setEntry m f1 d E) root x = p3Of m root x) ∧
    (∀ x y, x < 512 → p2Of (setEntry m f1 d E) root x y = p2Of m root x y) ∧
    (∀ x y z, x < 512 → y < 512 →
      p1Of (setEntry m f1 d E) root x y z = p1Of m root x y z) ∧
    (∀ q : Page, ¬(q.p4_index = a ∧ q.p3_index = b ∧ q.p2_index = c ∧
        q.p1_index = d) →
      (translate_page (setEntry m f1 d E) root q).toOpt =
        (translate_page m root q).toOpt) := by
  have hf1root : f1 ≠ root := hwf.ne01 ha hb hc hpar
  set mL := setEntry m f1 d E with hmL
  have hp3 : ∀ x, p3Of mL root x = p3Of m root x := by
    intro x
    show next_table mL root x = next_table m root x
    rw [hmL]
    exact next_table_setEntry m f1 d E root x (fun hh => hf1root hh.1.symm)
  have hp2 : ∀ x y, x < 512 → p2Of mL root x y = p2Of m root x y := by
    intro x y hx
    unfold p2Of
    rw [hp3 x]
    rcases hg : p3Of m root x with _ | g
    · rfl
    · simp only [Option.some_bind]
      have hgf1 : g ≠ f1 := by
        intro hh
        exact hwf.ne31 hx ha hb hc hg (hh ▸ hpar)
      rw [hmL]
      exact next_table_setEntry m f1 d E g y (fun hh => hgf1 hh.1)
  have hp1 : ∀ x y z, x < 512 → y < 512 →
      p1Of mL root x y z = p1Of m root x y z := by
    intro x y z hx hy
    unfold p1Of
    rw [hp2 x y hx]
    rcases hg : p2Of m root x y with _ | g2
    · rfl
    · simp only [Option.some_bind]
      have hgf1 : g2 ≠ f1 := by
        intro hh
        exact hwf.ne21 hx hy ha hb hc hg (hh ▸ hpar)
      rw [hmL]
      exact next_table_setEntry m f1 d E g2 z (fun hh => hgf1 hh.1)
  have htr : ∀ q : Page, ¬(q.p4_index = a ∧ q.p3_index = b ∧ q.p2_index = c ∧
      q.p1_index = d) →
      (translate_page mL root q).toOpt = (translate_page m root q).toOpt := by
    intro q hq
    apply translate_page_toOpt_congr
    · rw [hmL]
      exact setEntry_mem_other m f1 d E root _ (fun hh => hf1root hh.1.symm)
    · intro f3' h3
      have hne : f3' ≠ f1 := by
        intro hh
        exact hwf.ne31 (p4_index_lt q) ha hb hc h3 (hh ▸ hpar)
      rw [hmL]
      exact setEntry_mem_other m f1 d E f3' _ (fun hh => hne hh.1)
    · intro f3' f2' h3 h2
      have hf2' : p2Of m root q.p4_index q.p3_index = some f2' := p2Of_eq h3 h2
      have hne : f2' ≠ f1 := by
        intro hh
        exact hwf.ne21 (p4_index_lt q) (p3_index_lt q) ha hb hc hf2' (hh ▸ hpar)
      rw [hmL]
      exact setEntry_mem_other m f1 d E f2' _ (fun hh => hne hh.1)
    · intro f3' f2' f1' h3 h2 h1
      have hf1' : p1Of m root q.p4_index q.p3_index q.p2_index = some f1' :=
        p1Of_eq h3 h2 h1
      by_cases hff : f1' = f1
      · subst hff
        obtain ⟨hxa, hyb, hzc⟩ := hwf.inj1 (p4_index_lt q) (p3_index_lt q)
          (p2_index_lt q) ha hb hc hf1' hpar
        have hqd : q.p1_index ≠ d := fun hh => hq ⟨hxa, hyb, hzc, hh⟩
        rw [hmL]
        exact setEntry_mem_other m f1' d E f1' _ (fun hh => hqd hh.2)
      · rw [hmL]
        exact setEntry_mem_other m f1 d E f1' _ (fun hh => hff hh.1)
  have hWF : WF mL root := by
    refine ⟨?_, ?_, ?_, ?_, ?_, ?_, ?_, ?_, ?_, hwf.freeND, ?_⟩
    · intro i f hi hp
      rw [hp3 i] at hp
      exact hwf.ne03 hi hp
    · intro i j f hi hj hp
      rw [hp2 i j hi] at hp
      exact hwf.ne02 hi hj hp
    · intro i j k f hi hj hk hp
      rw [hp1 i j k hi hj] at hp
      exact hwf.ne01 hi hj hk hp
    · intro i i' j' f hi hi' hj' hp hq
      rw [hp3 i] at hp
      rw [hp2 i' j' hi'] at hq
      exact hwf.ne32 hi hi' hj' hp hq
    · intro i i' j' k' f hi hi' hj' hk' hp hq
      rw [hp3 i] at hp
      rw [hp1 i' j' k' hi' hj'] at hq
      exact hwf.ne31 hi hi' hj' hk' hp hq
    · intro i j i' j' k' f hi hj hi' hj' hk' hp hq
      rw [hp2 i j hi] at hp
      rw [hp1 i' j' k' hi' hj'] at hq
      exact hwf.ne21 hi hj hi' hj' hk' hp hq
    · intro i i' f hi hi' hp hq
      rw [hp3 i] at hp
      rw [hp3 i'] at hq
      exact hwf.inj3 hi hi' hp hq
    · intro i j i' j' f hi hj hi' hj' hp hq
      rw [hp2 i j hi] at hp
      rw [hp2 i' j' hi'] at hq
      exact hwf.inj2 hi hj hi' hj' hp hq
    · intro i j k i' j' k' f hi hj hk hi' hj' hk' hp hq
      rw [hp1 i j k hi hj] at hp
      rw [hp1 i' j' k' hi' hj'] at hq
      exact hwf.inj1 hi hj hk hi' hj' hk' hp hq
    · intro g hg
      obtain ⟨hgroot, h3g, h2g, h1g⟩ := hwf.freeFresh g hg
      refine ⟨hgroot, ?_, ?_, ?_⟩
      · intro i hi
        rw [hp3 i]
        exact h3g i hi
      · intro i j hi hj
        rw [hp2 i j hi]
        exact h2g i j hi hj
      · intro i j k hi hj hk
        rw [hp1 i j k hi hj]
        exact h1g i j k hi hj hk
  exact ⟨hWF, hp3, hp2, hp1, htr⟩

/-- Full effect of a successful `map_to`: the machine stays
well-formed, CR3/TLB/frames-in-use are sane, the mapped page now
translates to the given frame, and every page with a different index
tuple translates exactly as before. -/
theorem map_to_spec {m : Machine} {root : Nat} {p : Page} {fr : Nat}
    {fl : EntryFlags} {m' : Machine} {tok : Page}
    (hwf : WF m root)
    (h : map_to m root p fr fl = .ok (m', tok)) :
    WF m' root ∧ tok = p ∧
    m'.cr3 = m.cr3 ∧ m'.tlb = m.tlb ∧ (∀ g, g ∈ m'.free → g ∈ m.free) ∧
    (∀ q : Page, ¬(q.p4_index = p.p4_index ∧ q.p3_index = p.p3_index ∧
        q.p2_index = p.p2_index ∧ q.p1_index = p.p1_index) →
      (translate_page m' root q).toOpt = (translate_page m root q).toOpt) ∧
    translate_page m' root p = .ok (some fr) := by
  unfold map_to at h
  split at h
  · exact KResult.noConfusion h
  · rename_i f3 mA heqA
    split at h
    · exact KResult.noConfusion h
    · rename_i f2 mB heqB
      split at h
      · exact KResult.noConfusion h
      · rename_i f1 mC2 heqC
        split at h
        · cases h
          obtain ⟨hwfA, hA3, _, hA2, hA1, hAtr, hAcr, hAtlb, hAfree⟩ :=
            ntc_root_spec hwf (p4_index_lt p) heqA
          obtain ⟨hwfB, hB2, hB3, _, hB1, hBtr, hBcr, hBtlb, hBfree⟩ :=
            ntc_p3_spec hwfA (p4_index_lt p) (p3_index_lt p) hA3 heqB
          obtain ⟨hwfC, hC1, hC3, hC2, _, hCtr, hCcr, hCtlb, hCfree⟩ :=
            ntc_p2_spec hwfB (p4_index_lt p) (p3_index_lt p) (p2_index_lt p)
              hB2 heqC
          obtain ⟨hwfL, hL3, hL2, hL1, hLtr⟩ :=
            leaf_write_spec (E := Entry.set fr (fl.union EntryFlags.PRESENT))
              (d := p.p1_index) hwfC (p4_index_lt p) (p3_index_lt p)
              (p2_index_lt p) hC1
          set E := Entry.set fr (fl.union EntryFlags.PRESENT) with hE
          set mL := setEntry mC2 f1 p.p1_index E with hmL
          have hw4 : next_table mL root p.p4_index = some f3 := by
            show p3Of mL root p.p4_index = some f3
            rw [hL3, hC3, hB3]
            exact hA3
          have hp2L : p2Of mL root p.p4_index p.p3_index = some f2 := by
            rw [hL2 _ _ (p4_index_lt p), hC2 _ _ (p4_index_lt p)]
            exact hB2
          have hp1L : p1Of mL root p.p4_index p.p3_index p.p2_index = some f1 := by
            rw [hL1 _ _ _ (p4_index_lt p) (p3_index_lt p)]
            exact hC1
          obtain ⟨f3', hx4, hw3⟩ := p2Of_inv hp2L
          have hf3eq : f3' = f3 := by
            have := hx4.symm.trans hw4
            injection this
          subst hf3eq
          obtain ⟨f3'', f2'', hy4, hy3, hw2⟩ := p1Of_inv hp1L
          have : f3'' = f3' := by
            have := hy4.symm.trans hx4
            injection this
          subst this
          have : f2'' = f2 := by
            have := hy3.symm.trans hw3
            injection this
          subst this
          have hcell : mL.mem f1 p.p1_index = E := by
            rw [hmL]
            exact setEntry_mem_same _ _ _ _
          have hpres : (mL.mem f1 p.p1_index).present = true := by
            rw [hcell, hE]
            simp [Entry.set, EntryFlags.union, EntryFlags.PRESENT]
          refine ⟨hwfL, rfl, ?_, ?_, ?_, ?_, ?_⟩
          · show mL.cr3 = m.cr3
            rw [hmL]
            show mC2.cr3 = m.cr3
            rw [hCcr, hBcr, hAcr]
          · show mL.tlb = m.tlb
            rw [hmL]
            show mC2.tlb = m.tlb
            rw [hCtlb, hBtlb, hAtlb]
          · intro g hg
            have hg1 : g ∈ mC2.free := hg
            exact hAfree g (hBfree g (hCfree g hg1))
          · intro q hq
            calc (translate_page mL root q).toOpt
                = (translate_page mC2 root q).toOpt := hLtr q hq
              _ = (translate_page mB root q).toOpt := hCtr q
              _ = (translate_page mA root q).toOpt := hBtr q
              _ = (translate_page m root q).toOpt := hAtr q
          · have := translate_page_4k hw4 hw3 hw2 hpres
            rw [this, hcell, hE]
            rfl
        · exact KResult.noConfusion h


theorem next_table_of_mem_eq {m' m : Machine} (h : m'.mem = m.mem)
    (tf i : Nat) : next_table m' tf i = next_table m tf i := by
  unfold next_table
  rw [h]

/-- Transport well-formedness across machines that agree on memory and
free list (e.g. a TLB flush). -/
theorem wf_of_mem_free_eq {u m : Machine} {root : Nat}
    (hmem : u.mem = m.mem) (hfree : u.free = m.free) (hwf : WF m root) :
    WF u root := by
  have h3 : ∀ x, p3Of u root x = p3Of m root x :=
    fun x => next_table_of_mem_eq hmem root x
  have h2 : ∀ x y, p2Of u root x y = p2Of m root x y := by
    intro x y
    unfold p2Of
    rw [h3]
    rcases p3Of m root x with _ | g
    · rfl
    · simp only [Option.some_bind]
      exact next_table_of_mem_eq hmem g y
  have h1 : ∀ x y z, p1Of u root x y z = p1Of m root x y z := by
    intro x y z
    unfold p1Of
    rw [h2]
    rcases p2Of m root x y with _ | g
    · rfl
    · simp only [Option.some_bind]
      exact next_table_of_mem_eq hmem g z
  refine ⟨?_, ?_, ?_, ?_, ?_, ?_, ?_, ?_, ?_, ?_, ?_⟩
  · intro i f hi hp
    rw [h3] at hp
    exact hwf.ne03 hi hp
  · intro i j f hi hj hp
    rw [h2] at hp
    exact hwf.ne02 hi hj hp
  · intro i j k f hi hj hk hp
    rw [h1] at hp
    exact hwf.ne01 hi hj hk hp
  · intro i i' j' f hi hi' hj' hp hq
    rw [h3] at hp
    rw [h2] at hq
    exact hwf.ne32 hi hi' hj' hp hq
  · intro i i' j' k' f hi hi' hj' hk' hp hq
    rw [h3] at hp
    rw [h1] at hq
    exact hwf.ne31 hi hi' hj' hk' hp hq
  · intro i j i' j' k' f hi hj hi' hj' hk' hp hq
    rw [h2] at hp
    rw [h1] at hq
    exact hwf.ne21 hi hj hi' hj' hk' hp hq
  · intro i i' f hi hi' hp hq
    rw [h3] at hp
    rw [h3] at hq
    exact hwf.inj3 hi hi' hp hq
  · intro i j i' j' f hi hj hi' hj' hp hq
    rw [h2] at hp
    rw [h2] at hq
    exact hwf.inj2 hi hj hi' hj' hp hq
  · intro i j k i' j' k' f hi hj hk hi' hj' hk' hp hq
    rw [h1] at hp
    rw [h1] at hq
    exact hwf.inj1 hi hj hk hi' hj' hk' hp hq
  · rw [hfree]
    exact hwf.freeND
  · intro g hg
    rw [hfree] at hg
    obtain ⟨hgroot, h3g, h2g, h1g⟩ := hwf.freeFresh g hg
    refine ⟨hgroot, ?_, ?_, ?_⟩
    · intro i hi
      rw [h3]
      exact h3g i hi
    · intro i j hi hj
      rw [h2]
      exact h2g i j hi hj
    · intro i j k hi hj hk
      rw [h1]
      exact h1g i j k hi hj hk


theorem translate_page_toOpt_of_mem_eq {u m : Machine} {root : Nat}
    (h : u.mem = m.mem) (q : Page) :
    (translate_page u root q).toOpt = (translate_page m root q).toOpt :=
  translate_page_toOpt_congr u m root q (by rw [h]) (fun _ _ => by rw [h])
    (fun _ _ _ _ => by rw [h]) (fun _ _ _ _ _ _ => by rw [h])

/-- Dropping the head of the free list preserves well-formedness. -/
theorem wf_pop {m : Machine} {root g : Nat} {rest : List Nat}
    (hwf : WF m root) (hfree : m.free = g :: rest) :
    WF { m with free := rest } root := by
  have h3 : ∀ x, p3Of { m with free := rest } root x = p3Of m root x :=
    fun _ => rfl
  refine ⟨hwf.ne03, hwf.ne02, hwf.ne01, hwf.ne32, hwf.ne31, hwf.ne21,
    hwf.inj3, hwf.inj2, hwf.inj1, ?_, ?_⟩
  · show rest.Nodup
    have := hwf.freeND
    rw [hfree, List.nodup_cons] at this
    exact this.2
  · intro g' hg'
    have : g' ∈ m.free := by
      rw [hfree]
      exact List.mem_cons_of_mem _ hg'
    exact hwf.freeFresh g' this

/-- Full effect of a successful `Mapper::map`. -/
theorem map_spec {m : Machine} {root : Nat} {p : Page} {fl : EntryFlags}
    {m' : Machine} {tok : Page}
    (hwf : WF m root)
    (h : Mapper.map m root p fl = .ok (m', tok)) :
    WF m' root ∧ tok = p ∧ m'.cr3 = m.cr3 ∧ m'.tlb = m.tlb ∧
    (∀ q : Page, ¬(q.p4_index = p.p4_index ∧ q.p3_index = p.p3_index ∧
        q.p2_index = p.p2_index ∧ q.p1_index = p.p1_index) →
      (translate_page m' root q).toOpt = (translate_page m root q).toOpt) ∧
    (∃ fr, translate_page m' root p = .ok (some fr)) := by
  unfold Mapper.map at h
  split at h
  · exact KResult.noConfusion h
  · rename_i g rest hfree
    have hwf' := wf_pop hwf hfree
    obtain ⟨hwfL, htok, hcr, htlb, _, hpres, hmapped⟩ := map_to_spec hwf' h
    refine ⟨hwfL, htok, hcr, htlb, ?_, ⟨g, hmapped⟩⟩
    intro q hq
    exact (hpres q hq).trans
      (translate_page_toOpt_of_mem_eq (u := { m with free := rest }) (m := m)
        rfl q)

/-- Full effect of a successful mapping loop: well-formedness is kept
and every page whose index tuple differs from all mapped pages
translates as before. -/
theorem mapRange_spec {root : Nat} : ∀ (ps : List Page) (m m' : Machine),
    WF m root → mapRange m root ps = .ok m' →
    WF m' root ∧ m'.cr3 = m.cr3 ∧
    (∀ q : Page,
      (∀ pp ∈ ps, ¬(q.p4_index = pp.p4_index ∧ q.p3_index = pp.p3_index ∧
        q.p2_index = pp.p2_index ∧ q.p1_index = pp.p1_index)) →
      (translate_page m' root q).toOpt = (translate_page m root q).toOpt) := by
  intro ps
  induction ps with
  | nil =>
    intro m m' hwf h
    unfold mapRange at h
    cases h
    exact ⟨hwf, rfl, fun _ _ => rfl⟩
  | cons p rest ih =>
    intro m m' hwf h
    unfold mapRange at h
    split at h
    · exact KResult.noConfusion h
    · rename_i m1 tok heq
      obtain ⟨hwf1, htok, hcr1, _, hpres1, _⟩ := map_spec hwf heq
      rw [htok] at h
      have hwfF : WF (flushPage m1 p) root :=
        wf_of_mem_free_eq (u := flushPage m1 p) (m := m1) rfl rfl hwf1
      obtain ⟨hwf', hcr', hpres'⟩ := ih (flushPage m1 p) m' hwfF h
      refine ⟨hwf', ?_, ?_⟩
      · rw [hcr']
        show m1.cr3 = m.cr3
        exact hcr1
      · intro q hq
        calc (translate_page m' root q).toOpt
            = (translate_page (flushPage m1 p) root q).toOpt :=
              hpres' q (fun pp hpp => hq pp (List.mem_cons_of_mem _ hpp))
          _ = (translate_page m1 root q).toOpt :=
              translate_page_toOpt_of_mem_eq (u := flushPage m1 p) (m := m1)
                rfl q
          _ = (translate_page m root q).toOpt :=
              hpres1 q (hq p (List.mem_cons_self _ _))


theorem list_eta_pages : ∀ l : List Page, (l.map Page.number).map Page.mk = l := by
  intro l
  induction l with
  | nil => rfl
  | cons p rest ih =>
    simp only [List.map_cons, ih]


theorem take_as_range' (n x y : Nat) (h : y + 1 - x ≤ n) :
    PageIter.take n (Page.range_inclusive ⟨x⟩ ⟨y⟩) =
      (List.range' x (y + 1 - x)).map Page.mk := by
  have := take_range_inclusive n x y h
  calc PageIter.take n (Page.range_inclusive ⟨x⟩ ⟨y⟩)
      = ((PageIter.take n (Page.range_inclusive ⟨x⟩ ⟨y⟩)).map Page.number).map
          Page.mk := (list_eta_pages _).symm
    _ = (List.range' x (y + 1 - x)).map Page.mk := by rw [this]


theorem nth_succ_spec : ∀ (k x y : Nat), x + k ≤ y →
    PageIter.nth ⟨⟨x⟩, ⟨y⟩⟩ k = (some ⟨x + k⟩, ⟨⟨x + k + 1⟩, ⟨y⟩⟩) := by
  intro k
  induction k with
  | zero =>
    intro x y h
    show (PageIter.mk ⟨x⟩ ⟨y⟩).next = _
    rw [PageIter.next, if_pos (by simpa using h)]
    simp
  | succ k ih =>
    intro x y h
    show ((PageIter.mk ⟨x⟩ ⟨y⟩).next.2).nth k = _
    have hxy : x ≤ y := by omega
    rw [PageIter.next, if_pos (by simpa using hxy)]
    show PageIter.nth ⟨⟨x + 1⟩, ⟨y⟩⟩ k = _
    rw [ih (x + 1) y (by omega)]
    have e1 : x + 1 + k = x + (k + 1) := by omega
    rw [e1]

/-- Inversion of a successful `alloc_stack`: the guard page is the old
range start `a`, the stack occupies pages `a+1 .. a+s`, the range is
advanced past them, and the machine is the result of mapping exactly
those pages. -/
theorem alloc_stack_ok_inv {a b : Nat} {m : Machine} {root s : Nat}
    {st : Stack} {sa1 : StackAllocator} {m1 : Machine}
    (h : StackAllocator.alloc_stack ⟨⟨⟨a⟩, ⟨b⟩⟩⟩ m root s =
      .ok (some st, sa1, m1)) :
    1 ≤ s ∧ a + s ≤ b ∧
    st = ⟨(a + s) * PAGE_SIZE + PAGE_SIZE, (a + 1) * PAGE_SIZE⟩ ∧
    sa1 = ⟨⟨⟨a + s + 1⟩, ⟨b⟩⟩⟩ ∧
    mapRange m root ((List.range' (a + 1) s).map Page.mk) = .ok m1 := by
  unfold StackAllocator.alloc_stack at h
  by_cases hs : s = 0
  · rw [if_pos hs] at h
    simp at h
  rw [if_neg hs] at h
  by_cases hab : a ≤ b
  · have e1 : (PageIter.mk ⟨a⟩ ⟨b⟩).next = (some ⟨a⟩, ⟨⟨a + 1⟩, ⟨b⟩⟩) := by
      simp [PageIter.next, hab]
    by_cases hab2 : a + 1 ≤ b
    · have e2 : (PageIter.mk ⟨a + 1⟩ ⟨b⟩).next =
          (some ⟨a + 1⟩, ⟨⟨a + 2⟩, ⟨b⟩⟩) := by
        simp [PageIter.next, hab2]
      dsimp only at h
      rw [e1] at h
      dsimp only at h
      rw [e2] at h
      dsimp only at h
      by_cases hs1 : s = 1
      · subst hs1
        rw [if_pos rfl] at h
        dsimp only at h
        have hlen : (a + 1) + 1 - (a + 1) = 1 := by omega
        rw [take_as_range' _ (a + 1) (a + 1) (by omega)] at h
        rw [hlen] at h
        split at h
        · exact KResult.noConfusion h
        · rename_i m'' heqmr
          split at h
          · cases h
            exact ⟨le_refl 1, by omega, rfl, rfl, heqmr⟩
          · rename_i htop
            exfalso
            apply htop
            show (Page.mk (a + 1)).start_address + PAGE_SIZE >
              (Page.mk (a + 1)).start_address
            simp [PAGE_SIZE]
      · rw [if_neg hs1] at h
        by_cases hasb : a + s ≤ b
        · have e3 : PageIter.nth ⟨⟨a + 2⟩, ⟨b⟩⟩ (s - 2) =
              (some ⟨a + s⟩, ⟨⟨a + s + 1⟩, ⟨b⟩⟩) := by
            have := nth_succ_spec (s - 2) (a + 2) b (by omega)
            have e : a + 2 + (s - 2) = a + s := by omega
            rw [e] at this
            exact this
          rw [e3] at h
          dsimp only at h
          have hlen : (a + s) + 1 - (a + 1) = s := by omega
          rw [take_as_range' _ (a + 1) (a + s) (by omega)] at h
          rw [hlen] at h
          split at h
          · exact KResult.noConfusion h
          · rename_i m'' heqmr
            split at h
            · cases h
              exact ⟨by omega, hasb, rfl, rfl, heqmr⟩
            · rename_i htop
              exfalso
              apply htop
              show (Page.mk (a + s)).start_address + PAGE_SIZE >
                (Page.mk (a + 1)).start_address
              show (a + s) * PAGE_SIZE + PAGE_SIZE > (a + 1) * PAGE_SIZE
              have : a + 1 ≤ a + s := by omega
              have hmul : (a + 1) * PAGE_SIZE ≤ (a + s) * PAGE_SIZE :=
                Nat.mul_le_mul_right _ this
              simp only [PAGE_SIZE] at hmul ⊢
              omega
        · have e3 := nth_fst_none (s - 2) (a + 2) b (by omega)
          rcases hy : PageIter.nth ⟨⟨a + 2⟩, ⟨b⟩⟩ (s - 2) with ⟨o3, it3⟩
          rw [hy] at e3 h
          simp only at e3
          subst e3
          simp at h
    · have e2 : (PageIter.mk ⟨a + 1⟩ ⟨b⟩).next = (none, ⟨⟨a + 1⟩, ⟨b⟩⟩) := by
        simp [PageIter.next, hab2]
      dsimp only at h
      rw [e1] at h
      dsimp only at h
      rw [e2] at h
      simp at h
  · have e1 : (PageIter.mk ⟨a⟩ ⟨b⟩).next = (none, ⟨⟨a⟩, ⟨b⟩⟩) := by
      simp [PageIter.next, hab]
    dsimp only at h
    rw [e1] at h
    simp at h


theorem toOpt_ok {α : Type} {r : KResult α} {x : α}
    (h : r.toOpt = some x) : r = .ok x := by
  cases r with
  | panic s => exact Option.noConfusion h
  | ok a =>
    have : a = x := Option.some.inj h
    rw [this]

/-- Semantic effect of a successful `alloc_stack` on a well-formed
machine: the guard page is the old range start, the stack spans pages
`a+1 .. a+s`, and every page outside that window keeps its previous
translation. -/
theorem alloc_stack_ok_spec {a b : Nat} {m : Machine} {root s : Nat}
    {st : Stack} {sa1 : StackAllocator} {m1 : Machine}
    (hwf : WF m root) (hb36 : b < 512 * 512 * 512 * 512)
    (h : StackAllocator.alloc_stack ⟨⟨⟨a⟩, ⟨b⟩⟩⟩ m root s =
      .ok (some st, sa1, m1)) :
    1 ≤ s ∧ a + s ≤ b ∧
    st.bottom = (a + 1) * PAGE_SIZE ∧ st.top = (a + s) * PAGE_SIZE + PAGE_SIZE ∧
    sa1 = ⟨⟨⟨a + s + 1⟩, ⟨b⟩⟩⟩ ∧
    WF m1 root ∧
    (∀ q : Page, q.number < 512 * 512 * 512 * 512 →
      (q.number ≤ a ∨ a + s < q.number) →
      (translate_page m1 root q).toOpt = (translate_page m root q).toOpt) := by
  obtain ⟨hs, hab, hst, hsa, hmr⟩ := alloc_stack_ok_inv h
  obtain ⟨hwf1, _, hpres⟩ := mapRange_spec _ m m1 hwf hmr
  subst hst
  refine ⟨hs, hab, rfl, rfl, hsa, hwf1, ?_⟩
  intro q hq36 hqout
  apply hpres
  intro pp hpp
  obtain ⟨n, hn, rfl⟩ := List.mem_map.mp hpp
  rw [List.mem_range'] at hn
  have hne : q.number ≠ n := by omega
  have hn36 : n < 512 * 512 * 512 * 512 := by omega
  have hd := tuple_ne_of_number_ne (q := q) (p := Page.mk n) hq36 hn36 hne
  intro hc
  obtain ⟨h4, h3, h2, h1⟩ := hc
  rcases hd with hx | hx | hx | hx
  · exact hx h4
  · exact hx h3
  · exact hx h2
  · exact hx h1

/-- Invariant of a successful allocation sequence: all stacks live
above the initial range start, are separated by at least one page, are
preceded by an unmapped guard page in the final machine, and pages
below the window keep their translations. -/
theorem allocSeq_spec {root : Nat} : ∀ (sizes : List Nat) (a b : Nat)
    (m : Machine) (stks : List Stack) (sa' : StackAllocator) (m' : Machine),
    WF m root → b < 512 * 512 * 512 * 512 →
    (∀ n, a ≤ n → n ≤ b → translate_page m root ⟨n⟩ = .ok none) →
    allocSeq root sizes ⟨⟨⟨a⟩, ⟨b⟩⟩⟩ m = .ok (some (stks, sa', m')) →
    stks.length = sizes.length ∧
    WF m' root ∧
    (∃ a', sa' = ⟨⟨⟨a'⟩, ⟨b⟩⟩⟩ ∧ a ≤ a') ∧
    (∀ q : Page, q.number < 512 * 512 * 512 * 512 → q.number < a →
      (translate_page m' root q).toOpt = (translate_page m root q).toOpt) ∧
    (∀ st ∈ stks,
      st.bottom < st.top ∧
      (a + 1) * PAGE_SIZE ≤ st.bottom ∧
      PAGE_SIZE ≤ st.bottom ∧
      translate_page m' root ⟨st.bottom / PAGE_SIZE - 1⟩ = .ok none) ∧
    List.Pairwise (fun x y => x.top + PAGE_SIZE ≤ y.bottom) stks := by
  intro sizes
  induction sizes with
  | nil =>
    intro a b m stks sa' m' hwf hb36 hun h
    unfold allocSeq at h
    cases h
    refine ⟨rfl, hwf, ⟨a, rfl, le_refl a⟩, fun _ _ _ => rfl, ?_, List.Pairwise.nil⟩
    intro st hst
    exact absurd hst (List.not_mem_nil st)
  | cons s rest ih =>
    intro a b m stks sa' m' hwf hb36 hun h
    unfold allocSeq at h
    split at h
    · exact KResult.noConfusion h
    · simp at h
    · rename_i st0 sa1 m1 heq1
      rcases hseq : allocSeq root rest sa1 m1 with s2 | o2
      · rw [hseq] at h
        exact KResult.noConfusion h
      · rcases o2 with _ | ⟨l, sa2, m2⟩
        · rw [hseq] at h
          simp at h
        · rw [hseq] at h
          dsimp only at h
          cases h
          obtain ⟨hs1, hab, hbot, htop, hsa1, hwf1, hpres1⟩ :=
            alloc_stack_ok_spec hwf hb36 heq1
          subst hsa1
          have hun1 : ∀ n, a + s + 1 ≤ n → n ≤ b →
              translate_page m1 root ⟨n⟩ = .ok none := by
            intro n hn1 hn2
            apply toOpt_ok
            have hp := hpres1 ⟨n⟩ (by simp; omega) (by simp; omega)
            rw [hp]
            rw [hun n (by omega) hn2]
            rfl
          obtain ⟨hlen, hwf2, ⟨a2, hsa2, ha2⟩, hpres2, hF, hPW⟩ :=
            ih (a + s + 1) b m1 l sa' m' hwf1 hb36 hun1 hseq
          have hguard0 : translate_page m' root ⟨a⟩ = .ok none := by
            apply toOpt_ok
            have h1 := hpres2 ⟨a⟩ (by simp; omega) (by simp; omega)
            rw [h1]
            have h0 := hpres1 ⟨a⟩ (by simp; omega) (by simp)
            rw [h0, hun a (le_refl a) (by omega)]
            rfl
          have hps : (0 : Nat) < PAGE_SIZE := by norm_num [PAGE_SIZE]
          refine ⟨by simp [hlen], hwf2, ⟨a2, hsa2, by omega⟩, ?_, ?_, ?_⟩
          · intro q hq36 hqa
            have h1 := hpres2 q hq36 (by omega)
            have h0 := hpres1 q hq36 (by omega)
            rw [h1, h0]
          · intro st hst
            rcases List.mem_cons.mp hst with rfl | hst'
            · refine ⟨?_, ?_, ?_, ?_⟩
              · rw [hbot, htop]
                have hmul : (a + 1) * PAGE_SIZE ≤ (a + s) * PAGE_SIZE :=
                  Nat.mul_le_mul_right _ (by omega)
                omega
              · rw [hbot]
              · rw [hbot]
                have : 1 * PAGE_SIZE ≤ (a + 1) * PAGE_SIZE :=
                  Nat.mul_le_mul_right _ (by omega)
                omega
              · rw [hbot]
                have he : (a + 1) * PAGE_SIZE / PAGE_SIZE - 1 = a := by
                  rw [Nat.mul_div_cancel _ hps]
                  omega
                rw [he]
                exact hguard0
            · obtain ⟨hbt, hlow, hpsb, hg⟩ := hF st hst'
              refine ⟨hbt, ?_, hpsb, hg⟩
              calc (a + 1) * PAGE_SIZE ≤ (a + s + 1 + 1) * PAGE_SIZE :=
                  Nat.mul_le_mul_right _ (by omega)
                _ ≤ st.bottom := hlow
          · refine List.Pairwise.cons ?_ hPW
            intro st' hst'
            obtain ⟨_, hlow, _, _⟩ := hF st' hst'
            rw [htop]
            have heq : (a + s + 1 + 1) * PAGE_SIZE =
                (a + s) * PAGE_SIZE + PAGE_SIZE + PAGE_SIZE := by ring
            omega

/-- C5: for every sequence of successful `alloc_stack` calls over a
well-formed machine whose remaining range is initially unmapped, the
returned stacks' `[bottom, top)` ranges are pairwise disjoint with at
least one page of separation (so no page consumed by one call — guard
included — is ever reissued to a later call), and in the final machine
the page immediately below each `bottom` is exactly one unmapped guard
page. -/
theorem c5_alloc_stack_sequence (root : Nat) (sizes : List Nat) (a b : Nat)
    (m : Machine) (stks : List Stack) (sa' : StackAllocator) (m' : Machine)
    (hwf : WF m root) (hb36 : b < 512 * 512 * 512 * 512)
    (hun : ∀ n, a ≤ n → n ≤ b → translate_page m root ⟨n⟩ = .ok none)
    (h : allocSeq root sizes ⟨⟨⟨a⟩, ⟨b⟩⟩⟩ m = .ok (some (stks, sa', m'))) :
    stks.length = sizes.length ∧
    (∀ st ∈ stks, st.bottom < st.top) ∧
    List.Pairwise (fun x y => x.top + PAGE_SIZE ≤ y.bottom) stks ∧
    (∀ st ∈ stks, PAGE_SIZE ≤ st.bottom ∧
      translate_page m' root ⟨st.bottom / PAGE_SIZE - 1⟩ = .ok none) := by
  obtain ⟨hlen, _, _, _, hF, hPW⟩ :=
    allocSeq_spec sizes a b m stks sa' m' hwf hb36 hun h
  exact ⟨hlen, fun st hst => (hF st hst).1, hPW,
    fun st hst => ⟨(hF st hst).2.2.1, (hF st hst).2.2.2⟩⟩


theorem w3_mC5 : ∀ i, p3Of mC5 1 i = if i = 0 then some 2 else none := by
  intro i
  by_cases hi : i = 0
  · subst hi
    rfl
  · rw [if_neg hi]
    show next_table mC5 1 i = none
    simp [next_table, mC5, hi, Entry.unused]


theorem w2_mC5 : ∀ i j, p2Of mC5 1 i j =
    if i = 0 ∧ j = 0 then some 3 else none := by
  intro i j
  unfold p2Of
  rw [w3_mC5 i]
  by_cases hi : i = 0
  · rw [if_pos hi]
    simp only [Option.some_bind]
    by_cases hj : j = 0
    · subst hj
      rw [if_pos ⟨hi, rfl⟩]
      rfl
    · rw [if_neg (fun hc => hj hc.2)]
      show next_table mC5 2 j = none
      simp [next_table, mC5, hj, Entry.unused]
  · rw [if_neg hi, if_neg (fun hc => hi hc.1)]
    rfl


theorem w1_mC5 : ∀ i j k, p1Of mC5 1 i j k =
    if i = 0 ∧ j = 0 ∧ k = 0 then some 4 else none := by
  intro i j k
  unfold p1Of
  rw [w2_mC5 i j]
  by_cases hij : i = 0 ∧ j = 0
  · rw [if_pos hij]
    simp only [Option.some_bind]
    by_cases hk : k = 0
    · subst hk
      rw [if_pos ⟨hij.1, hij.2, rfl⟩]
      rfl
    · rw [if_neg (fun hc => hk hc.2.2)]
      show next_table mC5 3 k = none
      simp [next_table, mC5, hk, Entry.unused]
  · rw [if_neg hij, if_neg (fun hc => hij ⟨hc.1, hc.2.1⟩)]
    rfl


theorem wf_mC5 : WF mC5 1 := by
  refine ⟨?_, ?_, ?_, ?_, ?_, ?_, ?_, ?_, ?_, ?_, ?_⟩
  · intro i f hi hp
    rw [w3_mC5] at hp
    by_cases h0 : i = 0
    · rw [if_pos h0] at hp
      cases hp
      decide
    · rw [if_neg h0] at hp
      exact Option.noConfusion hp
  · intro i j f hi hj hp
    rw [w2_mC5] at hp
    by_cases h0 : i = 0 ∧ j = 0
    · rw [if_pos h0] at hp
      cases hp
      decide
    · rw [if_neg h0] at hp
      exact Option.noConfusion hp
  · intro i j k f hi hj hk hp
    rw [w1_mC5] at hp
    by_cases h0 : i = 0 ∧ j = 0 ∧ k = 0
    · rw [if_pos h0] at hp
      cases hp
      decide
    · rw [if_neg h0] at hp
      exact Option.noConfusion hp
  · intro i i' j' f hi hi' hj' hp
    rw [w3_mC5] at hp
    by_cases h0 : i = 0
    · rw [if_pos h0] at hp
      cases hp
      rw [w2_mC5]
      by_cases h1 : i' = 0 ∧ j' = 0
      · rw [if_pos h1]
        decide
      · rw [if_neg h1]
        decide
    · rw [if_neg h0] at hp
      exact Option.noConfusion hp
  · intro i i' j' k' f hi hi' hj' hk' hp
    rw [w3_mC5] at hp
    by_cases h0 : i = 0
    · rw [if_pos h0] at hp
      cases hp
      rw [w1_mC5]
      by_cases h1 : i' = 0 ∧ j' = 0 ∧ k' = 0
      · rw [if_pos h1]
        decide
      · rw [if_neg h1]
        decide
    · rw [if_neg h0] at hp
      exact Option.noConfusion hp
  · intro i j i' j' k' f hi hj hi' hj' hk' hp
    rw [w2_mC5] at hp
    by_cases h0 : i = 0 ∧ j = 0
    · rw [if_pos h0] at hp
      cases hp
      rw [w1_mC5]
      by_cases h1 : i' = 0 ∧ j' = 0 ∧ k' = 0
      · rw [if_pos h1]
        decide
      · rw [if_neg h1]
        decide
    · rw [if_neg h0] at hp
      exact Option.noConfusion hp
  · intro i i' f hi hi' hp hq
    rw [w3_mC5] at hp hq
    by_cases h0 : i = 0 <;> by_cases h1 : i' = 0
    · rw [h0, h1]
    · rw [if_pos h0] at hp
      rw [if_neg h1] at hq
      exact Option.noConfusion hq
    · rw [if_neg h0] at hp
      exact Option.noConfusion hp
    · rw [if_neg h0] at hp
      exact Option.noConfusion hp
  · intro i j i' j' f hi hj hi' hj' hp hq
    rw [w2_mC5] at hp hq
    by_cases h0 : i = 0 ∧ j = 0 <;> by_cases h1 : i' = 0 ∧ j' = 0
    · exact ⟨h0.1.trans h1.1.symm, h0.2.trans h1.2.symm⟩
    · rw [if_neg h1] at hq
      exact Option.noConfusion hq
    · rw [if_neg h0] at hp
      exact Option.noConfusion hp
    · rw [if_neg h0] at hp
      exact Option.noConfusion hp
  · intro i j k i' j' k' f hi hj hk hi' hj' hk' hp hq
    rw [w1_mC5] at hp hq
    by_cases h0 : i = 0 ∧ j = 0 ∧ k = 0 <;>
      by_cases h1 : i' = 0 ∧ j' = 0 ∧ k' = 0
    · exact ⟨h0.1.trans h1.1.symm, h0.2.1.trans h1.2.1.symm,
        h0.2.2.trans h1.2.2.symm⟩
    · rw [if_neg h1] at hq
      exact Option.noConfusion hq
    · rw [if_neg h0] at hp
      exact Option.noConfusion hp
    · rw [if_neg h0] at hp
      exact Option.noConfusion hp
  · show ([50, 51, 52] : List Nat).Nodup
    decide
  · intro g hg
    have hg' : g = 50 ∨ g = 51 ∨ g = 52 := by simpa [mC5] using hg
    have hg1 : g ≠ 1 := by rcases hg' with rfl | rfl | rfl <;> decide
    have hg2 : g ≠ 2 := by rcases hg' with rfl | rfl | rfl <;> decide
    have hg3 : g ≠ 3 := by rcases hg' with rfl | rfl | rfl <;> decide
    have hg4 : g ≠ 4 := by rcases hg' with rfl | rfl | rfl <;> decide
    refine ⟨hg1, ?_, ?_, ?_⟩
    · intro i hi
      rw [w3_mC5]
      by_cases h0 : i = 0
      · rw [if_pos h0]
        intro hh
        injection hh with hh'
        exact hg2 hh'.symm
      · rw [if_neg h0]
        exact Option.noConfusion
    · intro i j hi hj
      rw [w2_mC5]
      by_cases h0 : i = 0 ∧ j = 0
      · rw [if_pos h0]
        intro hh
        injection hh with hh'
        exact hg3 hh'.symm
      · rw [if_neg h0]
        exact Option.noConfusion
    · intro i j k hi hj hk
      rw [w1_mC5]
      by_cases h0 : i = 0 ∧ j = 0 ∧ k = 0
      · rw [if_pos h0]
        intro hh
        injection hh with hh'
        exact hg4 hh'.symm
      · rw [if_neg h0]
        exact Option.noConfusion


theorem hun_mC5 : ∀ n, 10 ≤ n → n ≤ 20 →
    translate_page mC5 1 ⟨n⟩ = .ok none := by
  intro n h1 h2
  have hi4 : (Page.mk n).p4_index = 0 := by
    simp only [Page.p4_index]
    omega
  have hi3 : (Page.mk n).p3_index = 0 := by
    simp only [Page.p3_index]
    omega
  have hi2 : (Page.mk n).p2_index = 0 := by
    simp only [Page.p2_index]
    omega
  apply translate_page_cleared (a := 2) (b := 3) (c := 4)
  · rw [hi4]
    rfl
  · rw [hi3]
    rfl
  · rw [hi2]
    rfl
  · have : mC5.mem 4 ((Page.mk n).p1_index) = Entry.unused := by
      show (if (4 : Nat) = 1 ∧ (Page.mk n).p1_index = 0 then
          (⟨true, true, false, 2⟩ : Entry)
        else if (4 : Nat) = 2 ∧ (Page.mk n).p1_index = 0 then ⟨true, true, false, 3⟩
        else if (4 : Nat) = 3 ∧ (Page.mk n).p1_index = 0 then ⟨true, true, false, 4⟩
        else Entry.unused) = Entry.unused
      norm_num
    rw [this]
    rfl


theorem c5_alloc_stack_sequence_witness :
    (WF mC5 1 ∧ (20 : Nat) < 512 * 512 * 512 * 512 ∧
      (∀ n, 10 ≤ n → n ≤ 20 → translate_page mC5 1 ⟨n⟩ = .ok none)) ∧
    ∃ stks sa' m',
      allocSeq 1 [1, 2] ⟨⟨⟨10⟩, ⟨20⟩⟩⟩ mC5 = .ok (some (stks, sa', m')) ∧
      stks.length = ([1, 2] : List Nat).length ∧
      (∀ st ∈ stks, st.bottom < st.top) ∧
      List.Pairwise (fun x y => x.top + PAGE_SIZE ≤ y.bottom) stks ∧
      (∀ st ∈ stks, PAGE_SIZE ≤ st.bottom ∧
        translate_page m' 1 ⟨st.bottom / PAGE_SIZE - 1⟩ = .ok none) := by
  have hOS : KResult.isOkSome (allocSeq 1 [1, 2] ⟨⟨⟨10⟩, ⟨20⟩⟩⟩ mC5) = true := by
    rfl
  refine ⟨⟨wf_mC5, by norm_num, hun_mC5⟩, ?_⟩
  cases hv : allocSeq 1 [1, 2] ⟨⟨⟨10⟩, ⟨20⟩⟩⟩ mC5 with
  | panic s =>
    rw [hv] at hOS
    exact Bool.noConfusion hOS
  | ok o =>
    cases o with
    | none =>
      rw [hv] at hOS
      exact Bool.noConfusion hOS
    | some t =>
      obtain ⟨stks, sa', m'⟩ := t
      obtain ⟨hlen, hbt, hpw, hgd⟩ :=
        c5_alloc_stack_sequence 1 [1, 2] 10 20 mC5 stks sa' m'
          wf_mC5 (by norm_num) hun_mC5 hv
      exact ⟨stks, sa', m', rfl, hlen, hbt, hpw, hgd⟩
